import Mathlib

/-!
Verification development for the TelegramOCR schedule-ingest core.

Shallow embedding conventions:
* Python strings are modelled by Lean `String`; where the code compares,
  case-folds or normalizes text we work on the list of code points
  (`List Nat`), which matches CPython string comparison (code-point
  lexicographic order).
* Python tuple sort keys are encoded as `NKey := List (List Nat)` (each
  component either the code points of a string or a singleton number) and
  compared lexicographically, which agrees with Python tuple comparison
  for the keys used by this program (components at equal positions always
  have the same type).
* `sorted(...)` is modelled by a stable insertion sort, which produces the
  same list as CPython Timsort for any key function (both are stable).

The file is organized as definitions first, theorems second.
-/

namespace TelegramOCR

/-! ### Definitions: comparison and sorting toolkit -/

/-- Three-way comparison on naturals, the model of Python integer order. -/
def natCmp (a b : Nat) : Ordering :=
  if a < b then .lt else if b < a then .gt else .eq

/-- Lexicographic lifting of a three-way comparison to lists; models both
Python string comparison (over code points) and tuple comparison. -/
def cmpLex (f : β → β → Ordering) : List β → List β → Ordering
  | [], [] => .eq
  | [], _ :: _ => .lt
  | _ :: _, [] => .gt
  | a :: as, b :: bs =>
    match f a b with
    | .eq => cmpLex f as bs
    | o => o

/-- Sort keys: a list of components, each a list of naturals. -/
abbrev NKey := List (List Nat)

def nlCmp : List Nat → List Nat → Ordering := cmpLex natCmp

def nkCmp : NKey → NKey → Ordering := cmpLex nlCmp

/-- Boolean non-strict key order. -/
def nkLeB (a b : NKey) : Bool :=
  match nkCmp a b with
  | .gt => false
  | _ => true

/-- Ordering of values through an `NKey`-valued sort key. -/
def keyRel (key : α → NKey) : α → α → Prop := fun a b => nkLeB (key a) (key b) = true

/-- Stable insertion of `a` into a key-sorted list. -/
def orderedInsertKey (key : α → NKey) (a : α) : List α → List α
  | [] => [a]
  | b :: l => if nkLeB (key a) (key b) then a :: b :: l else b :: orderedInsertKey key a l

/-- Model of Python `sorted(xs, key=...)`: a stable sort by an `NKey` key. -/
def sortByKey (key : α → NKey) : List α → List α
  | [] => []
  | b :: l => orderedInsertKey key b (sortByKey key l)

/-! ### Definitions: code points and shared text helpers -/

/-- The code points of a string; CPython compares strings exactly by this
sequence. -/
def codes (s : String) : List Nat := s.data.map Char.toNat

/-- Rebuild a string from code points (inverse of `codes` on valid code
points). -/
def natsToStr (l : List Nat) : String := ⟨l.map Char.ofNat⟩

/-- ASCII lowercase on a code point. The strings reaching `.lower()` and
`.casefold()` call sites in this repository are handled at the ASCII level;
this models CPython there. -/
def lowerCode (n : Nat) : Nat := if 65 ≤ n ∧ n ≤ 90 then n + 32 else n

/-- Code points of `s.casefold()` as used in the sort keys. -/
def cfCodes (s : String) : List Nat := (codes s).map lowerCode

/-! ### Definitions: `parser/entity_identity.py` -/

namespace entity_identity

/-- Python regex-class `\s` and `str.split()` whitespace, over the code
points this program exercises. -/
def isPySpaceCode (n : Nat) : Bool :=
  decide (n = 32 ∨ n = 9 ∨ n = 10 ∨ n = 13 ∨ n = 11 ∨ n = 12)

/-- `s.split(...)` for a separator class: maximal runs of non-separator
code points, empty runs dropped (Python `str.split()` semantics). -/
def splitByRaw (p : Nat → Bool) : List Nat → List (List Nat)
  | [] => []
  | c :: cs =>
    if p c then [] :: splitByRaw p cs
    else
      match splitByRaw p cs with
      | [] => [[c]]
      | w :: ws => (c :: w) :: ws

def splitBy (p : Nat → Bool) (s : List Nat) : List (List Nat) :=
  (splitByRaw p s).filter (fun w => !w.isEmpty)

/-- Python `" ".join(words)`. -/
def joinSp (segs : List (List Nat)) : List Nat := (List.intersperse [32] segs).flatten

/-- Python `" ".join(value.split())`: collapse whitespace runs. -/
def collapse (s : List Nat) : List Nat := joinSp (splitBy isPySpaceCode s)

/-- Modelled from the external `unicodedata` NFKD decomposition followed by
combining-mark removal (`_strip_accents`), restricted to a character table
for the Latin-1 letters this repository's data exercises; characters
without a table entry are left unchanged (non-decomposable letters such as
the o-slash are likewise unchanged by the source and later erased as
punctuation). -/
def stripAccentCode (n : Nat) : Nat :=
  if 192 ≤ n ∧ n ≤ 197 then 65
  else if n = 199 then 67
  else if 200 ≤ n ∧ n ≤ 203 then 69
  else if 204 ≤ n ∧ n ≤ 207 then 73
  else if n = 209 then 78
  else if 210 ≤ n ∧ n ≤ 214 then 79
  else if 217 ≤ n ∧ n ≤ 220 then 85
  else if n = 221 then 89
  else if 224 ≤ n ∧ n ≤ 229 then 97
  else if n = 231 then 99
  else if 232 ≤ n ∧ n ≤ 235 then 101
  else if 236 ≤ n ∧ n ≤ 239 then 105
  else if n = 241 then 110
  else if 242 ≤ n ∧ n ≤ 246 then 111
  else if 249 ≤ n ∧ n ≤ 252 then 117
  else if n = 253 ∨ n = 255 then 121
  else n

/-- The character class kept by `re.sub(r"[^A-Za-z0-9\s\-']", " ", ...)`. -/
def allowedReadableCode (n : Nat) : Bool :=
  decide ((65 ≤ n ∧ n ≤ 90) ∨ (97 ≤ n ∧ n ≤ 122) ∨ (48 ≤ n ∧ n ≤ 57)) ||
    isPySpaceCode n || decide (n = 45 ∨ n = 39)

/-- `_normalize_readable_text`. -/
def normalize_readable_text (s : List Nat) : List Nat :=
  let collapsed := collapse s
  if collapsed = [] then []
  else
    let stripped := collapsed.map stripAccentCode
    let alnum := stripped.map fun n => if allowedReadableCode n then n else 32
    collapse alnum

/-- `re.sub(r"[0o]", "o", ...)` per code point. -/
def confO (n : Nat) : Nat := if n = 48 ∨ n = 111 then 111 else n

/-- `re.sub(r"[1il|]", "l", ...)` per code point. -/
def confL (n : Nat) : Nat := if n = 49 ∨ n = 105 ∨ n = 108 ∨ n = 124 then 108 else n

/-- The class kept by the final `re.sub(r"[^a-z0-9]", "", ...)`. -/
def isLowerAlnumCode (n : Nat) : Bool :=
  decide ((97 ≤ n ∧ n ≤ 122) ∨ (48 ≤ n ∧ n ≤ 57))

/-- `_normalize_component`. -/
def normalize_component (s : List Nat) : List Nat :=
  let base := (normalize_readable_text s).map lowerCode
  if base = [] then []
  else ((base.map confO).map confL).filter isLowerAlnumCode

/-- Model of the external `hashlib.sha256(...).hexdigest()`: kept as an
injective encoding of its input. Every theorem below uses only that equal
inputs hash equal, plus collision freedom at the concrete distinct inputs
exercised. -/
def sha256hex (source : List Nat) : List Nat := source

/-- `location_fingerprint`. -/
def location_fingerprint (street street_number postal_area city : String) : String :=
  let place := if postal_area = "" then city else postal_area
  let source := normalize_component (codes street) ++ [124] ++
    normalize_component (codes street_number) ++ [124] ++
    normalize_component (codes place)
  natsToStr (sha256hex source)

def COMPANY_NOISE_TOKENS : List (List Nat) :=
  [codes "ab", codes "hb", codes "stadservice", codes "stadtjanst", codes "stadning"]

/-- Python `max(tokens, key=len)`: the first token of maximal length. -/
def maxByLen : List (List Nat) → List Nat
  | [] => []
  | t :: ts => ts.foldl (fun best u => if best.length < u.length then u else best) t

/-- `sorted` over bare code points. -/
def sortNats (l : List Nat) : List Nat := sortByKey (fun n => [[n]]) l

/-- `customer_fingerprint`. -/
def customer_fingerprint (customer_name : String) : String :=
  let normalized := (normalize_readable_text (codes customer_name)).map lowerCode
  let raw_tokens := splitBy (fun n => n = 32) normalized
  let tokens₀ := raw_tokens.filter (fun t => !COMPANY_NOISE_TOKENS.contains t)
  let tokens := if tokens₀.isEmpty then raw_tokens else tokens₀
  if tokens.isEmpty then natsToStr (sha256hex [])
  else
    let surname := maxByLen tokens
    let initials := sortNats ((tokens.filter (fun t => t ≠ surname)).filterMap List.head?)
    natsToStr (sha256hex (surname ++ [124] ++ initials))

/-- `re.sub(r"[1il]", "l", ...)` without the pipe: the pipe character is
erased as punctuation by `_normalize_readable_text` before the confusable
fold ever sees it, so the spec-level equivalence below excludes it. -/
def confLA (n : Nat) : Nat := if n = 49 ∨ n = 105 ∨ n = 108 then 108 else n

/-- Fused per-code-point canonicalization realized by the normalization
pipeline: accent strip, ASCII lower, then the confusable folds 0→o and
1,i→l. -/
def canonCodeA (n : Nat) : Nat := confLA (confO (lowerCode (stripAccentCode n)))

/-- Formalization of "the two strings differ only by letter case, accents,
whitespace, or the OCR confusable substitutions 0↔o, 1↔i↔l": code points
are related pairwise when they agree after canonicalization, and
whitespace may be freely inserted or dropped on either side. -/
inductive AddrEquiv : List Nat → List Nat → Prop
  | nil : AddrEquiv [] []
  | rel {c d : Nat} {cs ds : List Nat} :
      canonCodeA c = canonCodeA d → AddrEquiv cs ds → AddrEquiv (c :: cs) (d :: ds)
  | wsL {c : Nat} {cs ds : List Nat} :
      isPySpaceCode c = true → AddrEquiv cs ds → AddrEquiv (c :: cs) ds
  | wsR {d : Nat} {cs ds : List Nat} :
      isPySpaceCode d = true → AddrEquiv cs ds → AddrEquiv cs (d :: ds)

end entity_identity

/-! ### Definitions: shared data model and time helpers -/

/-- `CanonicalShift` from `parser/semantic_normalizer.py` (the `end` field
is named `end_` because `end` is a Lean keyword). The backfill runner
package references an identical record from its own (absent) normalizer
module; both diff embeddings share this structure. -/
structure CanonicalShift where
  start : String
  end_ : String
  customer_name : String
  customer_fingerprint : String
  street : String
  street_number : String
  postal_code : String
  postal_area : String
  city : String
  location_fingerprint : String
  shift_type : String
  raw_type_label : String
  deriving DecidableEq

/-- `SHIFT_TYPE_PRIORITY` from `parser/semantic_normalizer.py`. -/
def SHIFT_TYPE_PRIORITY : List (String × Nat) :=
  [("UNKNOWN", 0), ("BREAK", 1), ("TRAVEL", 2), ("MEETING", 3), ("ADMIN", 4),
   ("LEAVE", 5), ("TRAINING", 6), ("UNAVAILABLE", 7), ("WORK", 8)]

/-- `SHIFT_TYPE_PRIORITY.get(t, 0)`. -/
def shiftTypePriority (t : String) : Nat :=
  ((SHIFT_TYPE_PRIORITY.find? (fun p => p.1 = t)).map Prod.snd).getD 0

/-- Python `s.split(sep)` with an explicit one-character separator: empty
segments are kept. -/
def splitOnCode (sep : Nat) : List Nat → List (List Nat)
  | [] => [[]]
  | c :: cs =>
    if c = sep then [] :: splitOnCode sep cs
    else
      match splitOnCode sep cs with
      | [] => [[c]]
      | w :: ws => (c :: w) :: ws

/-- Model of `int(text)` on digit strings; the sources only call it on
validated digit sequences (on other inputs CPython raises). -/
def natOfDigits (l : List Nat) : Nat :=
  l.foldl (fun acc d => acc * 10 + (d - 48)) 0

/-- `_minutes`: `value.split(":", 1)` and `int` on both parts; the times
this program produces contain exactly one colon. -/
def minutesOf (value : String) : Nat :=
  match splitOnCode 58 (codes value) with
  | h :: m :: _ => natOfDigits h * 60 + natOfDigits m
  | _ => 0

def isLeapYear (y : Nat) : Bool :=
  (y % 4 = 0 && !(y % 100 = 0)) || y % 400 = 0

def daysInMonth (y m : Nat) : Nat :=
  if m = 2 then (if isLeapYear y then 29 else 28)
  else if m = 4 ∨ m = 6 ∨ m = 9 ∨ m = 11 then 30
  else 31

def allDigits (l : List Nat) : Bool :=
  l.all fun d => decide (48 ≤ d ∧ d ≤ 57)

/-- Model of `datetime.date.fromisoformat` accepting a dashed
`YYYY-MM-DD`; `_validate_schedule_date` raises exactly when this is false
(CPython 3.11+ also accepts some compact forms, which this program does
not use). Used as a hypothesis where the sources validate. -/
def isValidIsoDate (value : String) : Bool :=
  match splitOnCode 45 (codes value) with
  | [y, m, d] =>
    y.length = 4 && m.length = 2 && d.length = 2 &&
    allDigits y && allDigits m && allDigits d &&
    (let yn := natOfDigits y
     let mn := natOfDigits m
     let dn := natOfDigits d
     decide (1 ≤ yn ∧ 1 ≤ mn ∧ mn ≤ 12 ∧ 1 ≤ dn ∧ dn ≤ daysInMonth yn mn))
  | _ => false

/-! ### Definitions: `domain/schedule_diff.py` -/

namespace schedule_diff

/-- The diff event variants defined in `src/domain/schedule_diff.py`; that
module defines no reclassified variant. -/
inductive ScheduleDiffEvent where
  | ShiftAdded (schedule_date : String) (shift : CanonicalShift)
  | ShiftRemoved (schedule_date : String) (shift : CanonicalShift)
  | ShiftTimeChanged (schedule_date : String) (before after : CanonicalShift)
  | ShiftRelocated (schedule_date : String) (before after : CanonicalShift)
  | ShiftRetitled (schedule_date : String) (before after : CanonicalShift)
  deriving DecidableEq

/-- `_ShiftRef`. -/
structure ShiftRef where
  sequence : Nat
  shift : CanonicalShift
  deriving DecidableEq

/-- The shift-field part of `_ref_sort_key`. -/
def ref_sort_key_shift (s : CanonicalShift) : NKey :=
  [codes s.location_fingerprint, codes s.customer_fingerprint, codes s.start,
   codes s.end_, cfCodes s.customer_name, cfCodes s.street,
   cfCodes s.street_number, cfCodes s.city]

/-- `_ref_sort_key`. -/
def ref_sort_key (r : ShiftRef) : NKey := ref_sort_key_shift r.shift ++ [[r.sequence]]

/-- `[_ShiftRef(sequence=index, shift=value) for index, value in enumerate(...)]`. -/
def enumRefs (shifts : List CanonicalShift) : List ShiftRef :=
  shifts.enum.map fun p => ShiftRef.mk p.1 p.2

/-- `_pair_by_key`: group both sides by the key, pair groups positionally
after the stable sort, and return the pairs plus unconsumed refs. The
sorted set intersection of the Python dictionaries is modelled by
dedup-and-sort of the common keys, and each group by filter-and-sort,
which produce the same lists. -/
def pair_by_key (old_refs new_refs : List ShiftRef) (key_fn : ShiftRef → NKey) :
    List (ShiftRef × ShiftRef) × List ShiftRef × List ShiftRef :=
  let commonKeys :=
    sortByKey id (((old_refs.map key_fn).filter
      (fun k => (new_refs.map key_fn).contains k)).dedup)
  let paired := commonKeys.flatMap fun k =>
    let old_values := sortByKey ref_sort_key (old_refs.filter (fun r => key_fn r == k))
    let new_values := sortByKey ref_sort_key (new_refs.filter (fun r => key_fn r == k))
    old_values.zip new_values
  let consumed_old := paired.map fun p => p.1.sequence
  let consumed_new := paired.map fun p => p.2.sequence
  (paired,
   old_refs.filter (fun r => !consumed_old.contains r.sequence),
   new_refs.filter (fun r => !consumed_new.contains r.sequence))

/-- Stage 1 key: `(schedule_date, location_fingerprint, customer_fingerprint)`. -/
def stage1_key (schedule_date : String) (r : ShiftRef) : NKey :=
  [codes schedule_date, codes r.shift.location_fingerprint,
   codes r.shift.customer_fingerprint]

/-- Stage 2 key: `(schedule_date, customer_fingerprint, start, end)`. -/
def stage2_key (schedule_date : String) (r : ShiftRef) : NKey :=
  [codes schedule_date, codes r.shift.customer_fingerprint,
   codes r.shift.start, codes r.shift.end_]

/-- Stage 3 key: `(schedule_date, location_fingerprint, start, end)`. -/
def stage3_key (schedule_date : String) (r : ShiftRef) : NKey :=
  [codes schedule_date, codes r.shift.location_fingerprint,
   codes r.shift.start, codes r.shift.end_]

/-- Stage 1 event emission per pair (this module has no
reclassified branch). -/
def stage1_event (schedule_date : String) (p : ShiftRef × ShiftRef) :
    Option ScheduleDiffEvent :=
  if (p.1.shift.start, p.1.shift.end_) ≠ (p.2.shift.start, p.2.shift.end_) then
    some (.ShiftTimeChanged schedule_date p.1.shift p.2.shift)
  else if p.1.shift.customer_name ≠ p.2.shift.customer_name then
    some (.ShiftRetitled schedule_date p.1.shift p.2.shift)
  else none

def stage2_event (schedule_date : String) (p : ShiftRef × ShiftRef) :
    Option ScheduleDiffEvent :=
  if p.1.shift.location_fingerprint ≠ p.2.shift.location_fingerprint then
    some (.ShiftRelocated schedule_date p.1.shift p.2.shift)
  else if p.1.shift.customer_name ≠ p.2.shift.customer_name then
    some (.ShiftRetitled schedule_date p.1.shift p.2.shift)
  else none

def stage3_event (schedule_date : String) (p : ShiftRef × ShiftRef) :
    Option ScheduleDiffEvent :=
  if p.1.shift.customer_fingerprint ≠ p.2.shift.customer_fingerprint then
    some (.ShiftRetitled schedule_date p.1.shift p.2.shift)
  else none

/-- `diff_schedules` of `src/domain/schedule_diff.py`. The source first
raises on an invalid ISO `schedule_date`; theorems carry the validity
hypothesis instead. -/
def diff_schedules (previous_version current_version : List CanonicalShift)
    (schedule_date : String) : List ScheduleDiffEvent :=
  let old_refs := enumRefs previous_version
  let new_refs := enumRefs current_version
  let s1 := pair_by_key old_refs new_refs (stage1_key schedule_date)
  let events1 := s1.1.filterMap (stage1_event schedule_date)
  let s2 := pair_by_key s1.2.1 s1.2.2 (stage2_key schedule_date)
  let events2 := s2.1.filterMap (stage2_event schedule_date)
  let s3 := pair_by_key s2.2.1 s2.2.2 (stage3_key schedule_date)
  let events3 := s3.1.filterMap (stage3_event schedule_date)
  let removed := (sortByKey ref_sort_key s3.2.1).map
    fun r => ScheduleDiffEvent.ShiftRemoved schedule_date r.shift
  let added := (sortByKey ref_sort_key s3.2.2).map
    fun r => ScheduleDiffEvent.ShiftAdded schedule_date r.shift
  events1 ++ events2 ++ events3 ++ removed ++ added

end schedule_diff

/-! ### Definitions: the backfill runner copy
`tools/local_backfill_runner/.../domain/schedule_diff.py` -/

namespace local_backfill_runner

open schedule_diff in
/-- `_time_distance_minutes`. -/
def time_distance_minutes (old new : CanonicalShift) : Nat :=
  ((minutesOf old.start : Int) - (minutesOf new.start : Int)).natAbs +
    ((minutesOf old.end_ : Int) - (minutesOf new.end_ : Int)).natAbs

/-- The event union of the backfill runner module, which also defines
`ShiftReclassified`. -/
inductive BFScheduleDiffEvent where
  | ShiftAdded (schedule_date : String) (shift : CanonicalShift)
  | ShiftRemoved (schedule_date : String) (shift : CanonicalShift)
  | ShiftTimeChanged (schedule_date : String) (before after : CanonicalShift)
  | ShiftRelocated (schedule_date : String) (before after : CanonicalShift)
  | ShiftRetitled (schedule_date : String) (before after : CanonicalShift)
  | ShiftReclassified (schedule_date : String) (before after : CanonicalShift)
  deriving DecidableEq

open schedule_diff

/-- The greedy score `(time distance, old stable key, new stable key)` as
one `NKey`; both stable keys have the fixed length 9, so `NKey`
comparison coincides with Python tuple comparison of the score. -/
def greedyScore (o n : ShiftRef) : NKey :=
  [[time_distance_minutes o.shift n.shift]] ++ ref_sort_key o ++ ref_sort_key n

/-- The argmin scan of the nested loops in `_pair_group_by_time_distance`:
first pair of indices (row-major) realizing the smallest score, updated
only on strict improvement as in the source. -/
def bestGreedyIndices (olds news : List ShiftRef) : Option (Nat × Nat) :=
  ((olds.enum.flatMap fun oi => news.enum.map fun ni =>
      (greedyScore oi.2 ni.2, oi.1, ni.1)).foldl
    (fun best cand =>
      match best with
      | none => some cand
      | some b => if nkCmp cand.1 b.1 = .lt then some cand else some b)
    none).map Prod.snd

/-- `_pair_group_by_time_distance`, with an explicit fuel equal to the
bound on loop iterations (each iteration pops one element from each list,
so `olds.length` fuel always suffices; the source's `while` loop
terminates for the same reason). -/
def pair_group_by_time_distance_fuel (fuel : Nat) (olds news : List ShiftRef) :
    List (ShiftRef × ShiftRef) :=
  match fuel with
  | 0 => []
  | fuel + 1 =>
    if olds.isEmpty || news.isEmpty then []
    else
      match bestGreedyIndices olds news with
      | none => []
      | some (oi, ni) =>
        match olds.get? oi, news.get? ni with
        | some ob, some nb =>
          (ob, nb) :: pair_group_by_time_distance_fuel fuel
            (olds.eraseIdx oi) (news.eraseIdx ni)
        | _, _ => []
termination_by structural fuel

def pair_group_by_time_distance (old_values new_values : List ShiftRef) :
    List (ShiftRef × ShiftRef) :=
  pair_group_by_time_distance_fuel old_values.length old_values new_values

/-- `_pair_group_by_index`. -/
def pair_group_by_index (old_values new_values : List ShiftRef) :
    List (ShiftRef × ShiftRef) :=
  old_values.zip new_values

/-- The backfill runner `_pair_by_key` with its `pair_mode` switch. -/
def pair_by_key (old_refs new_refs : List ShiftRef) (key_fn : ShiftRef → NKey)
    (pair_mode : String) :
    List (ShiftRef × ShiftRef) × List ShiftRef × List ShiftRef :=
  let commonKeys :=
    sortByKey id (((old_refs.map key_fn).filter
      (fun k => (new_refs.map key_fn).contains k)).dedup)
  let paired := commonKeys.flatMap fun k =>
    let old_values := sortByKey ref_sort_key (old_refs.filter (fun r => key_fn r == k))
    let new_values := sortByKey ref_sort_key (new_refs.filter (fun r => key_fn r == k))
    if pair_mode = "time_distance" then
      pair_group_by_time_distance old_values new_values
    else
      pair_group_by_index old_values new_values
  let consumed_old := paired.map fun p => p.1.sequence
  let consumed_new := paired.map fun p => p.2.sequence
  (paired,
   old_refs.filter (fun r => !consumed_old.contains r.sequence),
   new_refs.filter (fun r => !consumed_new.contains r.sequence))

/-- Stage 1 event emission of the backfill runner: times, then customer
name, then shift type. -/
def stage1_event (schedule_date : String) (p : ShiftRef × ShiftRef) :
    Option BFScheduleDiffEvent :=
  if (p.1.shift.start, p.1.shift.end_) ≠ (p.2.shift.start, p.2.shift.end_) then
    some (.ShiftTimeChanged schedule_date p.1.shift p.2.shift)
  else if p.1.shift.customer_name ≠ p.2.shift.customer_name then
    some (.ShiftRetitled schedule_date p.1.shift p.2.shift)
  else if p.1.shift.shift_type ≠ p.2.shift.shift_type then
    some (.ShiftReclassified schedule_date p.1.shift p.2.shift)
  else none

def stage2_event (schedule_date : String) (p : ShiftRef × ShiftRef) :
    Option BFScheduleDiffEvent :=
  if p.1.shift.location_fingerprint ≠ p.2.shift.location_fingerprint then
    some (.ShiftRelocated schedule_date p.1.shift p.2.shift)
  else if p.1.shift.customer_name ≠ p.2.shift.customer_name then
    some (.ShiftRetitled schedule_date p.1.shift p.2.shift)
  else none

def stage3_event (schedule_date : String) (p : ShiftRef × ShiftRef) :
    Option BFScheduleDiffEvent :=
  if p.1.shift.customer_fingerprint ≠ p.2.shift.customer_fingerprint then
    some (.ShiftRetitled schedule_date p.1.shift p.2.shift)
  else none

/-- `diff_schedules` of the backfill runner copy: stage 1 pairs by greedy
minimal time distance and a reclassified event exists. -/
def diff_schedules (previous_version current_version : List CanonicalShift)
    (schedule_date : String) : List BFScheduleDiffEvent :=
  let old_refs := enumRefs previous_version
  let new_refs := enumRefs current_version
  let s1 := pair_by_key old_refs new_refs (stage1_key schedule_date) "time_distance"
  let events1 := s1.1.filterMap (stage1_event schedule_date)
  let s2 := pair_by_key s1.2.1 s1.2.2 (stage2_key schedule_date) "index"
  let events2 := s2.1.filterMap (stage2_event schedule_date)
  let s3 := pair_by_key s2.2.1 s2.2.2 (stage3_key schedule_date) "index"
  let events3 := s3.1.filterMap (stage3_event schedule_date)
  let removed := (sortByKey ref_sort_key s3.2.1).map
    fun r => BFScheduleDiffEvent.ShiftRemoved schedule_date r.shift
  let added := (sortByKey ref_sort_key s3.2.2).map
    fun r => BFScheduleDiffEvent.ShiftAdded schedule_date r.shift
  events1 ++ events2 ++ events3 ++ removed ++ added

end local_backfill_runner

/-! ### Definitions: `domain/session_aggregate.py` -/

namespace session_aggregate

open entity_identity (isPySpaceCode joinSp collapse splitBy)

/-- Python `str.strip()` over code points. -/
def stripCodes (l : List Nat) : List Nat :=
  ((l.dropWhile isPySpaceCode).reverse.dropWhile isPySpaceCode).reverse

structure AggShiftRef where
  image_index : Nat
  shift_index : Nat
  shift : CanonicalShift
  deriving DecidableEq

/-- `AggregatedShift`. `_extract_notes` reads a `notes` attribute that
`CanonicalShift` does not define, so it always returns the empty tuple;
the notes field is carried but stays empty. -/
structure AggregatedShift where
  shift : CanonicalShift
  source_count : Nat
  notes : List String
  deriving DecidableEq

structure AggregatedDaySchedule where
  schedule_date : String
  shifts : List AggregatedShift
  deriving DecidableEq

structure Cluster where
  shift : CanonicalShift
  source_count : Nat
  notes : List String
  deriving DecidableEq

/-- `_clock_distance` (the minutes of valid `HH:MM` times are below 1440,
so the truncated subtraction agrees with the source). -/
def clock_distance (left right : Nat) : Nat :=
  let diff := ((left : Int) - right).natAbs
  min diff (1440 - diff)

/-- `_time_distance_minutes`. -/
def time_distance_minutes (l r : CanonicalShift) : Nat :=
  clock_distance (minutesOf l.start) (minutesOf r.start) +
    clock_distance (minutesOf l.end_) (minutesOf r.end_)

/-- `_clockwise_distance`: `(point - start) % 1440` with Python `%`
semantics (`Int.emod` is nonnegative for a positive modulus). -/
def clockwise_distance (start point : Nat) : Nat :=
  (((point : Int) - start).emod 1440).toNat

/-- `_duration_minutes`. -/
def duration_minutes (s : CanonicalShift) : Nat :=
  (((minutesOf s.end_ : Int) - minutesOf s.start).emod 1440).toNat

/-- `_range_contains`. -/
def range_contains (container candidate : CanonicalShift) : Bool :=
  let container_start := minutesOf container.start
  let candidate_start := minutesOf candidate.start
  let container_duration := duration_minutes container
  let candidate_duration := duration_minutes candidate
  if container_duration < candidate_duration then false
  else
    let start_distance := clockwise_distance container_start candidate_start
    if container_duration < start_distance then false
    else if candidate_duration = 0 then true
    else
      let candidate_end := minutesOf candidate.end_
      let end_distance := clockwise_distance container_start candidate_end
      decide (end_distance ≤ container_duration)

/-- `_cluster_match_priority_key`. -/
def cluster_match_priority_key (cluster_shift incoming_shift : CanonicalShift)
    (distance tolerance : Nat) : NKey :=
  [[if distance ≤ tolerance then 0 else 1], [distance],
   [minutesOf cluster_shift.start], [minutesOf cluster_shift.end_],
   codes cluster_shift.customer_fingerprint,
   codes incoming_shift.customer_fingerprint]

/-- `_best_cluster_for_shift`: scan the clusters keeping the first index
realizing the smallest `(distance, priority key)`, skipping clusters that
are neither within tolerance nor a same-customer containment. -/
def best_cluster_for_shift (clusters : List Cluster) (shift : CanonicalShift)
    (tolerance : Nat) : Option Nat :=
  (clusters.enum.foldl
    (fun best p =>
      let distance := time_distance_minutes p.2.shift shift
      let contains :=
        p.2.shift.customer_fingerprint == shift.customer_fingerprint &&
          (range_contains p.2.shift shift || range_contains shift p.2.shift)
      if tolerance < distance && !contains then best
      else
        let key := cluster_match_priority_key p.2.shift shift distance tolerance
        match best with
        | none => some (p.1, distance, key)
        | some (bi, bd, bk) =>
          if distance < bd || (distance = bd && nkCmp key bk = .lt) then
            some (p.1, distance, key)
          else some (bi, bd, bk))
    none).map fun b => b.1

/-- `_unwrap_minutes_near`: the rotation of `value` by a full day that
minimizes `(abs distance to anchor, value)`; Python `min` keeps the
current candidate unless the next one is strictly smaller. -/
def unwrap_minutes_near (value anchor_minutes : Int) : Int :=
  let pick := fun (c d : Int) =>
    if (d - anchor_minutes).natAbs < (c - anchor_minutes).natAbs ∨
        ((d - anchor_minutes).natAbs = (c - anchor_minutes).natAbs ∧ d < c) then d
    else c
  pick (pick (value - 1440) value) (value + 1440)

/-- `_unwrap_interval`. -/
def unwrap_interval (shift : CanonicalShift) (anchor_minutes : Int) : Int × Int :=
  let start := unwrap_minutes_near (minutesOf shift.start) anchor_minutes
  (start, start + duration_minutes shift)

/-- Two-digit zero-padded decimal; the values reaching it are below 100
(`hour ≤ 23`, `minute ≤ 59`), where it matches Python `f"{n:02d}"`. -/
def pad2 (n : Nat) : String := natsToStr [48 + (n / 10) % 10, 48 + n % 10]

/-- `_from_minutes_mod`. -/
def from_minutes_mod (total : Int) : String :=
  let normalized := (total.emod 1440).toNat
  pad2 (normalized / 60) ++ ":" ++ pad2 (normalized % 60)

/-- The `(len(strip), casefold)` upgrade key shared by
`_select_better_customer_name` and `_select_better_raw_type_label`. -/
def upgrade_key (s : String) : NKey := [[(stripCodes (codes s)).length], cfCodes s]

/-- `_select_better_customer_name`. -/
def select_better_customer_name (left right : String) : String :=
  if nkCmp (upgrade_key right) (upgrade_key left) = .gt then right else left

/-- `_select_better_raw_type_label`. -/
def select_better_raw_type_label (left right : String) : String :=
  if nkCmp (upgrade_key right) (upgrade_key left) = .gt then right else left

/-- Python `min` on two strings (first argument on ties). -/
def strMin (left right : String) : String :=
  if nlCmp (codes left) (codes right) = .gt then right else left

/-- `_select_shift_type`. -/
def select_shift_type (left right : String) : String :=
  if left = right then left
  else if left = "UNKNOWN" then right
  else if right = "UNKNOWN" then left
  else
    let lp := shiftTypePriority left
    let rp := shiftTypePriority right
    if lp = rp then strMin left right
    else if rp < lp then left else right

/-- `_address_length`. -/
def address_length (s : CanonicalShift) : Nat :=
  (joinSp (([s.street, s.street_number, s.postal_code, s.postal_area, s.city].map codes).filter
    (fun t => !t.isEmpty))).length

def NOISY_LOCATION_TOKENS : List (List Nat) :=
  [codes "schedule", codes "helphub", codes "account", codes "collaborators",
   codes "profile"]

def isWordCode (n : Nat) : Bool :=
  decide ((97 ≤ n ∧ n ≤ 122) ∨ (48 ≤ n ∧ n ≤ 57) ∨ n = 95)

/-- The casefolded, whitespace-collapsed address text of
`_address_quality_score`. -/
def address_text (s : CanonicalShift) : List Nat :=
  collapse ((joinSp (([s.street, s.street_number, s.postal_code, s.postal_area,
    s.city].map codes).filter (fun t => !t.isEmpty))).map lowerCode)

/-- `re.search(rf"\b{token}\b", text)` for a plain lowercase word: the
token occurs as a maximal word-character run. -/
def searchWord (text token : List Nat) : Bool :=
  (splitBy (fun n => !isWordCode n) text).contains token

/-- `_address_quality_score`. -/
def address_quality_score (s : CanonicalShift) : Int :=
  let base : Int :=
    (if stripCodes (codes s.street) ≠ [] then
      (40 : Int) + min (stripCodes (codes s.street)).length 40 else 0) +
    (if stripCodes (codes s.street_number) ≠ [] then 12 else 0) +
    (if stripCodes (codes s.postal_code) ≠ [] then 10 else 0) +
    (if stripCodes (codes s.postal_area) ≠ [] then 8 else 0) +
    (if stripCodes (codes s.city) ≠ [] then
      (12 : Int) + min (stripCodes (codes s.city)).length 20 else 0)
  let text := address_text s
  let noise : Int :=
    ((NOISY_LOCATION_TOKENS.filter (fun t => searchWord text t)).length : Int) * 80
  let punct : Int := if text.contains 63 || text.contains 43 then 15 else 0
  base - noise - punct

/-- `_merge_shift`. -/
def merge_shift (base incoming : CanonicalShift) : CanonicalShift :=
  let anchor : Int := minutesOf base.start
  let b := unwrap_interval base anchor
  let i := unwrap_interval incoming anchor
  let start_minutes := min b.1 i.1
  let end_minutes := max b.2 i.2
  let selected_customer_name :=
    select_better_customer_name base.customer_name incoming.customer_name
  let bq := address_quality_score base
  let iq := address_quality_score incoming
  let addrSrc :=
    if bq < iq then incoming
    else if iq < bq then base
    else if address_length base < address_length incoming then incoming
    else base
  let selected_shift_type := select_shift_type base.shift_type incoming.shift_type
  let selected_raw_type_label :=
    select_better_raw_type_label base.raw_type_label incoming.raw_type_label
  let identity_anchor :=
    if stripCodes (codes selected_customer_name) ≠ [] then
      natsToStr (stripCodes (codes selected_customer_name))
    else if stripCodes (codes selected_raw_type_label) ≠ [] then
      natsToStr (stripCodes (codes selected_raw_type_label))
    else selected_shift_type
  { start := from_minutes_mod start_minutes
    end_ := from_minutes_mod end_minutes
    customer_name := selected_customer_name
    customer_fingerprint := entity_identity.customer_fingerprint identity_anchor
    street := addrSrc.street
    street_number := addrSrc.street_number
    postal_code := addrSrc.postal_code
    postal_area := addrSrc.postal_area
    city := addrSrc.city
    location_fingerprint := entity_identity.location_fingerprint addrSrc.street
      addrSrc.street_number addrSrc.postal_area addrSrc.city
    shift_type := selected_shift_type
    raw_type_label := selected_raw_type_label }

/-- The in-group sort key of `_merge_location_group`. -/
def group_sort_key (r : AggShiftRef) : NKey :=
  [[minutesOf r.shift.start], [minutesOf r.shift.end_],
   codes r.shift.customer_fingerprint, [r.image_index], [r.shift_index]]

/-- The shift-determined prefix of `group_sort_key` (everything before
the image/shift index tiebreak). -/
def group_key_shift (s : CanonicalShift) : NKey :=
  [[minutesOf s.start], [minutesOf s.end_], codes s.customer_fingerprint]

/-- `_merge_location_group`. -/
def merge_location_group (refs : List AggShiftRef) (time_tolerance_minutes : Nat) :
    List Cluster :=
  (sortByKey group_sort_key refs).foldl
    (fun clusters ref =>
      match best_cluster_for_shift clusters ref.shift time_tolerance_minutes with
      | none => clusters ++ [Cluster.mk ref.shift 1 []]
      | some idx =>
        match clusters.get? idx with
        | none => clusters
        | some c =>
          clusters.set idx
            (Cluster.mk (merge_shift c.shift ref.shift) (c.source_count + 1) c.notes))
    []

/-- The global ref sort key of `aggregate_session_shifts`. -/
def refs_sort_key (r : AggShiftRef) : NKey :=
  [codes r.shift.location_fingerprint, [minutesOf r.shift.start],
   [minutesOf r.shift.end_], codes r.shift.customer_fingerprint,
   [r.image_index], [r.shift_index]]

/-- The flattened, index-tagged refs of a session. -/
def enumImageRefs (session_images : List (List CanonicalShift)) : List AggShiftRef :=
  session_images.enum.flatMap fun img =>
    img.2.enum.map fun p => AggShiftRef.mk img.1 p.1 p.2

/-- The `_dedupe_exact_identity_time` group key. -/
def dedupe_key (a : AggregatedShift) : NKey :=
  [codes a.shift.start, codes a.shift.end_, codes a.shift.customer_fingerprint,
   codes a.shift.shift_type, cfCodes a.shift.raw_type_label]

/-- `_dedupe_exact_identity_time` (the merged note sets stay empty, see
`AggregatedShift`). -/
def dedupe_exact_identity_time (values : List AggregatedShift) : List AggregatedShift :=
  let keys := sortByKey id ((values.map dedupe_key).dedup)
  keys.flatMap fun k =>
    match values.filter (fun v => dedupe_key v == k) with
    | [] => []
    | [single] => [single]
    | first :: rest =>
      [rest.foldl
        (fun acc item =>
          AggregatedShift.mk (merge_shift acc.shift item.shift)
            (acc.source_count + item.source_count) (acc.notes ++ item.notes))
        first]

/-- The output sort key of `aggregate_session_shifts`. -/
def out_sort_key (a : AggregatedShift) : NKey :=
  [[minutesOf a.shift.start], [minutesOf a.shift.end_],
   codes a.shift.location_fingerprint, codes a.shift.customer_fingerprint,
   cfCodes a.shift.customer_name]

/-- `aggregate_session_shifts`. The source first validates the ISO date
and the nonnegative tolerance (nonnegativity is structural here); the
theorems carry the date hypothesis. -/
def aggregate_session_shifts (session_images : List (List CanonicalShift))
    (schedule_date : String) (time_tolerance_minutes : Nat) : AggregatedDaySchedule :=
  let refs := sortByKey refs_sort_key (enumImageRefs session_images)
  let locKeys := sortByKey (fun l => [l])
    ((refs.map (fun r => codes r.shift.location_fingerprint)).dedup)
  let merged := locKeys.flatMap fun lk =>
    merge_location_group
      (refs.filter (fun r => codes r.shift.location_fingerprint == lk))
      time_tolerance_minutes
  let aggregated := merged.map fun c =>
    AggregatedShift.mk c.shift c.source_count c.notes
  let deduped := dedupe_exact_identity_time aggregated
  AggregatedDaySchedule.mk schedule_date (sortByKey out_sort_key deduped)

/-- The stable identity-and-time key of the order-invariance theorem. -/
def identity_time_key (s : CanonicalShift) : NKey :=
  [codes s.location_fingerprint, [minutesOf s.start], [minutesOf s.end_],
   codes s.customer_fingerprint]

end session_aggregate

/-! ### Definitions: `domain/notification_rules.py` -/

namespace notification_rules

/-- Decimal digits of a natural, with structural fuel so the kernel can
evaluate it (the fuel `n + 1` always suffices). -/
def natDigitsAux (fuel n : Nat) : List Nat :=
  match fuel with
  | 0 => []
  | fuel + 1 => if n < 10 then [48 + n] else natDigitsAux fuel (n / 10) ++ [48 + n % 10]
termination_by structural fuel

/-- Python `str(n)` for a natural number. -/
def natDecStr (n : Nat) : String := natsToStr (natDigitsAux (n + 1) n)

/-- Four-digit zero-padded decimal (years in this program are
four-digit). -/
def pad4 (n : Nat) : String :=
  natsToStr [48 + (n / 1000) % 10, 48 + (n / 100) % 10, 48 + (n / 10) % 10, 48 + n % 10]

/-- Python `datetime.date` (validated calendar dates; equality and
ordering compare the component triple, as CPython does). -/
structure PyDate where
  year : Nat
  month : Nat
  day : Nat
  deriving DecidableEq

def PyDate.iso (d : PyDate) : String :=
  pad4 d.year ++ "-" ++ session_aggregate.pad2 d.month ++ "-" ++
    session_aggregate.pad2 d.day

def daysBeforeMonth (y m : Nat) : Nat :=
  [0, 31, 59, 90, 120, 151, 181, 212, 243, 273, 304, 334].getD (m - 1) 0 +
    (if 2 < m && isLeapYear y then 1 else 0)

/-- Python `date.toordinal()` (proleptic Gregorian day number). -/
def PyDate.toOrdinal (d : PyDate) : Nat :=
  365 * (d.year - 1) + (d.year - 1) / 4 - (d.year - 1) / 100 +
    (d.year - 1) / 400 + daysBeforeMonth d.year d.month + d.day

/-- `ScheduleEvent`. The source also accepts dict-shaped events and
coerces them through `_coerce_event`; record-shaped events pass through
unchanged, and the embedding speaks records. `old_value` and `new_value`
are canonical shift payloads; `detected_at` carries the `isoformat`
string of the datetime (only that string enters the sort key). -/
structure ScheduleEvent where
  event_id : String
  user_id : Nat
  schedule_date : PyDate
  event_type : String
  location_fingerprint : String
  customer_fingerprint : String
  old_value : Option CanonicalShift
  new_value : Option CanonicalShift
  source_session_id : String
  detected_at : Option String
  deriving DecidableEq

structure UserNotification where
  notification_id : String
  user_id : Nat
  schedule_date : PyDate
  source_session_id : String
  message : String
  notification_type : String
  event_ids : List String
  deriving DecidableEq

/-- `_event_sort_key`. -/
def event_sort_key (e : ScheduleEvent) : NKey :=
  let start :=
    match e.new_value with
    | some s => s.start
    | none =>
      match e.old_value with
      | some s => s.start
      | none => "99:99"
  [[e.user_id], codes e.schedule_date.iso, codes start,
   codes e.location_fingerprint, codes e.event_type,
   codes e.source_session_id, codes (e.detected_at.getD ""), codes e.event_id]

/-- `_value_key`: `"null"` or the sorted-key `key:value` join of the
canonical shift payload. -/
def value_key (v : Option CanonicalShift) : String :=
  match v with
  | none => "null"
  | some s =>
    "city:" ++ s.city ++ "|customer_fingerprint:" ++ s.customer_fingerprint ++
      "|customer_name:" ++ s.customer_name ++ "|end:" ++ s.end_ ++
      "|location_fingerprint:" ++ s.location_fingerprint ++
      "|postal_area:" ++ s.postal_area ++ "|postal_code:" ++ s.postal_code ++
      "|raw_type_label:" ++ s.raw_type_label ++ "|shift_type:" ++ s.shift_type ++
      "|start:" ++ s.start ++ "|street:" ++ s.street ++
      "|street_number:" ++ s.street_number

/-- `_semantic_event_key` (SHA-256 modelled as in `sha256hex`). -/
def semantic_event_key (e : ScheduleEvent) : String :=
  natsToStr (entity_identity.sha256hex (codes
    (natDecStr e.user_id ++ "|" ++ e.schedule_date.iso ++ "|" ++
      e.source_session_id ++ "|" ++ e.event_type ++ "|" ++
      e.location_fingerprint ++ "|" ++ e.customer_fingerprint ++ "|" ++
      value_key e.old_value ++ "|" ++ value_key e.new_value)))

def joinPipe : List String → String
  | [] => ""
  | [x] => x
  | x :: xs => x ++ "|" ++ joinPipe xs

/-- `_notification_id`. -/
def notification_id (user_id : Nat) (schedule_date : PyDate)
    (source_session_id : String) (parts : List String) : String :=
  natsToStr (entity_identity.sha256hex (codes
    (joinPipe ([natDecStr user_id, schedule_date.iso, source_session_id] ++ parts))))

/-- `_day_label`. The source compares against
`fromordinal(toordinal + 1)`; on validated dates that equals comparing
ordinals. -/
def day_label (schedule_date : PyDate) (baseline_day : Option PyDate) : String :=
  match baseline_day with
  | none => "on " ++ schedule_date.iso
  | some b =>
    if schedule_date = b then "today"
    else if schedule_date.toOrdinal = b.toOrdinal + 1 then "tomorrow"
    else "on " ++ schedule_date.iso

/-- `value[:1].upper() + value[1:]` at the ASCII level. -/
def capitalizeFirst (s : String) : String :=
  match codes s with
  | [] => s
  | c :: cs => natsToStr ((if 97 ≤ c ∧ c ≤ 122 then c - 32 else c) :: cs)

/-- `_day_label_capitalized`. -/
def day_label_capitalized (schedule_date : PyDate) (baseline_day : Option PyDate) :
    String :=
  capitalizeFirst (day_label schedule_date baseline_day)

/-- Python `str.title()` at the ASCII level (only the fallback branch of
`_shift_type_label` uses it). -/
def titleAux : Bool → List Nat → List Nat
  | _, [] => []
  | prevAlpha, c :: cs =>
    let isAl := decide ((65 ≤ c ∧ c ≤ 90) ∨ (97 ≤ c ∧ c ≤ 122))
    let c' :=
      if isAl then
        if prevAlpha then (if 65 ≤ c ∧ c ≤ 90 then c + 32 else c)
        else (if 97 ≤ c ∧ c ≤ 122 then c - 32 else c)
      else c
    c' :: titleAux isAl cs

def pyTitle (s : String) : String := natsToStr (titleAux false (codes s))

/-- `_shift_type_label`. -/
def shift_type_label (value : String) : String :=
  if value = "WORK" then "Work shift"
  else if value = "TRAVEL" then "Travel"
  else if value = "TRAINING" then "Training"
  else if value = "BREAK" then "Break"
  else if value = "MEETING" then "Meeting"
  else if value = "ADMIN" then "Administrative task"
  else if value = "LEAVE" then "Leave"
  else if value = "UNAVAILABLE" then "Unavailable"
  else if value = "SCHOOL" then "Work shift"
  else if value = "OFFICE" then "Work shift"
  else if value = "HOME_VISIT" then "Work shift"
  else if value = "UNKNOWN" then "Unknown job type"
  else pyTitle value

def optStart (v : Option CanonicalShift) : String := (v.map (·.start)).getD "--:--"

def optEnd (v : Option CanonicalShift) : String := (v.map (·.end_)).getD "--:--"

/-- `_time_change_phrase`. -/
def time_change_phrase (old_shift new_shift : Option CanonicalShift) : String :=
  let old_start := optStart old_shift
  let old_end := optEnd old_shift
  let new_start := optStart new_shift
  let new_end := optEnd new_shift
  if old_start ≠ new_start ∧ old_end = new_end then old_start ++ " → " ++ new_start
  else if old_end ≠ new_end ∧ old_start = new_start then
    "ends " ++ old_end ++ " → " ++ new_end
  else old_start ++ "–" ++ old_end ++ " → " ++ new_start ++ "–" ++ new_end

/-- `_event_message`. -/
def event_message (e : ScheduleEvent) (baseline_day : Option PyDate) : String :=
  let day_upper := day_label_capitalized e.schedule_date baseline_day
  let day_lower := day_label e.schedule_date baseline_day
  if e.event_type = "shift_added" then
    "New shift added " ++ day_lower ++ " " ++ optStart e.new_value ++ "–" ++
      optEnd e.new_value ++ " in " ++ ((e.new_value.map (·.city)).getD "unknown location")
  else if e.event_type = "shift_removed" then
    "Shift removed " ++ day_lower ++ " " ++ optStart e.old_value ++ "–" ++
      optEnd e.old_value ++ " in " ++ ((e.old_value.map (·.city)).getD "unknown location")
  else if e.event_type = "shift_time_changed" then
    day_upper ++ " " ++
      (match e.new_value with
       | some s => s.city
       | none => match e.old_value with
         | some s => s.city
         | none => "shift") ++
      " shift moved " ++ time_change_phrase e.old_value e.new_value
  else if e.event_type = "shift_relocated" then
    day_upper ++ " " ++
      (match e.new_value with
       | some s => s.start
       | none => match e.old_value with
         | some s => s.start
         | none => "--:--") ++
      " shift moved to " ++ ((e.new_value.map (·.city)).getD "unknown location")
  else if e.event_type = "shift_reclassified" then
    day_upper ++ " job updated to " ++
      (match e.new_value with
       | some s => if s.raw_type_label = "" then shift_type_label s.shift_type
         else s.raw_type_label
       | none => shift_type_label "UNKNOWN")
  else if e.event_type = "shift_retitled" then
    day_upper ++ " shift updated for " ++
      (match e.new_value with
       | some s => s.customer_name
       | none => match e.old_value with
         | some s => s.customer_name
         | none => "customer")
  else day_upper ++ " schedule updated"

/-- The dedupe scan: drop events whose id (or semantic key when the id is
empty) was already seen; `seen` starts as the caller's
`already_notified_event_ids`. -/
def dedupe_fresh : List ScheduleEvent → List String → List ScheduleEvent
  | [], _ => []
  | e :: rest, seen =>
    let key := if e.event_id ≠ "" then e.event_id else semantic_event_key e
    if seen.contains key then dedupe_fresh rest seen
    else e :: dedupe_fresh rest (key :: seen)

def group_key (e : ScheduleEvent) : Nat × PyDate × String :=
  (e.user_id, e.schedule_date, e.source_session_id)

/-- Python ordering of the `(user_id, schedule_date, source_session_id)`
group keys. -/
def gkey_nkey (k : Nat × PyDate × String) : NKey :=
  [[k.1], [k.2.1.year, k.2.1.month, k.2.1.day], codes k.2.2]

def summary_notification (k : Nat × PyDate × String)
    (grouped_events : List ScheduleEvent) (baseline_day : Option PyDate) :
    UserNotification :=
  { notification_id := notification_id k.1 k.2.1 k.2.2
      ("summary" :: grouped_events.map (·.event_id))
    user_id := k.1
    schedule_date := k.2.1
    source_session_id := k.2.2
    message := natDecStr grouped_events.length ++ " shifts updated for " ++
      day_label k.2.1 baseline_day
    notification_type := "summary"
    event_ids := grouped_events.map (·.event_id) }

def event_notification (k : Nat × PyDate × String) (e : ScheduleEvent)
    (baseline_day : Option PyDate) : UserNotification :=
  { notification_id := notification_id k.1 k.2.1 k.2.2 [e.event_id]
    user_id := k.1
    schedule_date := k.2.1
    source_session_id := k.2.2
    message := event_message e baseline_day
    notification_type := "event"
    event_ids := [e.event_id] }

/-- `build_notifications`. The source raises for `summary_threshold ≤ 0`;
theorems carry `0 < summary_threshold`. Grouping by a Python dict and
iterating `sorted(groups.keys())` is modelled by dedup-sort of the keys
with filter per key, which yields the same groups in the same order. -/
def build_notifications (events : List ScheduleEvent) (summary_threshold : Nat)
    (today : Option PyDate) (already_notified_event_ids : List String) :
    List UserNotification :=
  let normalized_events := sortByKey event_sort_key events
  let fresh_events := dedupe_fresh normalized_events already_notified_event_ids
  let keys := sortByKey gkey_nkey ((fresh_events.map group_key).dedup)
  keys.flatMap fun k =>
    let grouped_events := fresh_events.filter (fun e => group_key e == k)
    if summary_threshold ≤ grouped_events.length then
      [summary_notification k grouped_events today]
    else
      grouped_events.map fun e => event_notification k e today

end notification_rules

/-! ### Definitions: `domain/session_lifecycle.py` -/

namespace session_lifecycle

structure SessionLifecycleConfig where
  idle_timeout_seconds : Nat
  open_state : String
  processing_state : String
  processed_state : String
  failed_state : String
  deriving DecidableEq

/-- The dataclass defaults (the deployment labels its open state
`closed`). -/
def defaultConfig : SessionLifecycleConfig :=
  { idle_timeout_seconds := 25, open_state := "closed",
    processing_state := "processing", processed_state := "done",
    failed_state := "failed" }

/-- One `capture_session` row (the columns the query touches). -/
structure CaptureSessionRow where
  id : String
  state : String
  deriving DecidableEq

/-- One `capture_image` row; `created_at` in seconds. -/
structure CaptureImageRow where
  session_id : String
  created_at : Int
  deriving DecidableEq

structure Db where
  capture_session : List CaptureSessionRow
  capture_image : List CaptureImageRow

def imagesOf (db : Db) (sid : String) : List CaptureImageRow :=
  db.capture_image.filter fun i => i.session_id == sid

/-- `ORDER BY MAX(ci.created_at), cs.id` rows. -/
def rowLe (a b : Int × String) : Bool :=
  decide (a.1 < b.1) || (decide (a.1 = b.1) && !(nlCmp (codes a.2) (codes b.2) == .gt))

def insertRow (a : Int × String) : List (Int × String) → List (Int × String)
  | [] => [a]
  | b :: l => if rowLe a b then a :: b :: l else b :: insertRow a l

def sortRows : List (Int × String) → List (Int × String)
  | [] => []
  | a :: l => insertRow a (sortRows l)

/-- `find_finalizable_sessions`: the SQL query
`SELECT cs.id FROM capture_session cs JOIN capture_image ci ON
ci.session_id = cs.id WHERE cs.state = open GROUP BY cs.id HAVING
MAX(ci.created_at) <= now - idle_timeout ORDER BY MAX(ci.created_at),
cs.id`. The inner join drops sessions without images; `now` is seconds
(the source's timezone-awareness check has no content here). -/
def find_finalizable_sessions (db : Db) (now : Int)
    (config : SessionLifecycleConfig) : List String :=
  let cutoff : Int := now - config.idle_timeout_seconds
  let rows := db.capture_session.filterMap fun s =>
    if s.state = config.open_state then
      match (imagesOf db s.id).map (·.created_at) with
      | [] => none
      | t :: ts =>
        let m := ts.foldl max t
        if m ≤ cutoff then some (m, s.id) else none
    else none
  (sortRows rows).map (·.2)

/-- The observable per-session state for the finalization-order model. -/
structure LifecycleState where
  session_state : String
  stored_notifications : Nat
  deriving DecidableEq

inductive LifecycleStep where
  | load_images
  | run_pipeline
  | persist_events
  | build_messages
  | mark_processed (applied : Bool)
  | store_messages (ok : Bool)
  | mark_failed (applied : Bool)
  deriving DecidableEq

/-- `mark_session_processed`: conditional `processing → done` update
(`rowcount == 1` iff the state matched). -/
def mark_session_processed (config : SessionLifecycleConfig)
    (st : LifecycleState) : LifecycleState × Bool :=
  if st.session_state = config.processing_state then
    ({ st with session_state := config.processed_state }, true)
  else (st, false)

/-- `mark_session_failed`: conditional `processing → failed` update. -/
def mark_session_failed (config : SessionLifecycleConfig)
    (st : LifecycleState) : LifecycleState × Bool :=
  if st.session_state = config.processing_state then
    ({ st with session_state := config.failed_state }, true)
  else (st, false)

/-- `process_finalized_session` for one claimed session, with the load,
pipeline, persist and build steps assumed to succeed (the claim under
study concerns the notification-persist step): the marker runs first;
notifications are stored only when it applied; `store_ok = false` models
`store_notifications` raising. The outcome is `none` when an exception
propagates, `some none` for the lost-marker `return None`, and
`some (some n)` on success. -/
def process_finalized_session (config : SessionLifecycleConfig)
    (store_ok : Bool) (notifications : Nat) (st : LifecycleState) :
    LifecycleState × List LifecycleStep × Option (Option Nat) :=
  let trace0 := [LifecycleStep.load_images, .run_pipeline, .persist_events,
    .build_messages]
  let marked := mark_session_processed config st
  let trace1 := trace0 ++ [.mark_processed marked.2]
  if marked.2 = false then (marked.1, trace1, some none)
  else if store_ok then
    ({ marked.1 with
        stored_notifications := marked.1.stored_notifications + notifications },
      trace1 ++ [.store_messages true], some (some notifications))
  else (marked.1, trace1 ++ [.store_messages false], none)

/-- The `run_lifecycle_once` body for one already-claimed session: run the
processing and, when it raises, attempt the `processing → failed`
transition. -/
def run_lifecycle_step (config : SessionLifecycleConfig) (store_ok : Bool)
    (notifications : Nat) (st : LifecycleState) :
    LifecycleState × List LifecycleStep :=
  let r := process_finalized_session config store_ok notifications st
  match r.2.2 with
  | none =>
    let failed := mark_session_failed config r.1
    (failed.1, r.2.1 ++ [.mark_failed failed.2])
  | some _ => (r.1, r.2.1)

end session_lifecycle

/-! ### Definitions: concrete instances used by the claim theorems -/

namespace fixtures

/-- A shift record with the identity fields used by the diff and
aggregation claims (fingerprints are opaque inputs to those modules). -/
def mkShift (start end_ name cfp street number city lfp stype : String) :
    CanonicalShift :=
  { start := start, end_ := end_, customer_name := name,
    customer_fingerprint := cfp, street := street, street_number := number,
    postal_code := "", postal_area := "", city := city,
    location_fingerprint := lfp, shift_type := stype, raw_type_label := "" }

/-- The repository test input of a type-only change
(`test_shift_reclassified_when_type_changes_only`). -/
def officeBefore : CanonicalShift :=
  mkShift "10:00" "12:00" "Office Shift" "cust-office" "Kontorsgatan" "8"
    "Molndal" "loc-kontor" "OFFICE"

def officeAfter : CanonicalShift :=
  mkShift "10:00" "12:00" "Office Shift" "cust-office" "Kontorsgatan" "8"
    "Molndal" "loc-kontor" "HOME_VISIT"

/-- A duplicate-identity day where positional and greedy nearest-time
pairing disagree: old `(08:00, 15:00)`, new `(15:00, 16:00)` starts. -/
def dupOld1 : CanonicalShift :=
  mkShift "08:00" "10:00" "Marie" "cust-m" "Valebergsvagen" "316" "Billdal"
    "loc-v" "WORK"

def dupOld2 : CanonicalShift :=
  mkShift "15:00" "17:00" "Marie" "cust-m" "Valebergsvagen" "316" "Billdal"
    "loc-v" "WORK"

def dupNew1 : CanonicalShift :=
  mkShift "15:00" "17:00" "Marie" "cust-m" "Valebergsvagen" "316" "Billdal"
    "loc-v" "WORK"

def dupNew2 : CanonicalShift :=
  mkShift "16:00" "18:00" "Marie" "cust-m" "Valebergsvagen" "316" "Billdal"
    "loc-v" "WORK"

/-- Two shifts identical except for customer-name case; the fingerprint
is shared since `customer_fingerprint` lowercases. -/
def annaLower : CanonicalShift :=
  mkShift "10:00" "14:00" "anna" "cust-a" "Valebergsvagen" "316" "Billdal"
    "loc-v" "WORK"

def annaUpper : CanonicalShift :=
  mkShift "10:00" "14:00" "Anna" "cust-a" "Valebergsvagen" "316" "Billdal"
    "loc-v" "WORK"

/-- The spec scenario 6 pair at one location with small jitter. -/
def jitterA1 : CanonicalShift :=
  mkShift "08:00" "10:00" "Marie Sjoberg" "cust-m" "Valebergsvagen" "316"
    "Billdal" "loc-a" "WORK"

def jitterA2 : CanonicalShift :=
  mkShift "08:02" "10:01" "Marie Sjoberg" "cust-m" "Valebergsvagen" "316"
    "Billdal" "loc-a" "WORK"

/-- The spec scenario 5 day: three pairwise distinct shifts
`A@08, B@12, C@15` whose stable sort keys differ. -/
def reorderA : CanonicalShift :=
  mkShift "08:00" "10:00" "Anna" "cust-a" "Storgatan" "1" "Billdal"
    "loc-a" "WORK"

def reorderB : CanonicalShift :=
  mkShift "12:00" "14:00" "Bertil" "cust-b" "Lillgatan" "2" "Billdal"
    "loc-b" "WORK"

def reorderC : CanonicalShift :=
  mkShift "15:00" "17:00" "Cecilia" "cust-c" "Mellangatan" "3" "Billdal"
    "loc-c" "WORK"

open notification_rules in
/-- Two events of one `(user, date, session)` group whose input order
disagrees with the deterministic event sort key (the starts differ). -/
def evEarly : ScheduleEvent :=
  { event_id := "evt-a", user_id := 7, schedule_date := PyDate.mk 2026 8 22,
    event_type := "shift_time_changed", location_fingerprint := "loc-a",
    customer_fingerprint := "cust-a",
    old_value := some (mkShift "09:00" "11:00" "Anna" "cust-a" "Vale" "316"
      "Billdal" "loc-a" "WORK"),
    new_value := some (mkShift "09:30" "11:00" "Anna" "cust-a" "Vale" "316"
      "Billdal" "loc-a" "WORK"),
    source_session_id := "sess-1", detected_at := none }

open notification_rules in
def evLate : ScheduleEvent :=
  { event_id := "evt-b", user_id := 7, schedule_date := PyDate.mk 2026 8 22,
    event_type := "shift_time_changed", location_fingerprint := "loc-a",
    customer_fingerprint := "cust-a",
    old_value := some (mkShift "12:00" "14:00" "Anna" "cust-a" "Vale" "316"
      "Billdal" "loc-a" "WORK"),
    new_value := some (mkShift "12:30" "14:00" "Anna" "cust-a" "Vale" "316"
      "Billdal" "loc-a" "WORK"),
    source_session_id := "sess-1", detected_at := none }

open session_lifecycle in
/-- A one-session, one-image database whose image is too recent at
`now = 1000` with the default 25-second idle timeout. -/
def recentDb : Db :=
  { capture_session := [CaptureSessionRow.mk "sess-1" "closed"],
    capture_image := [CaptureImageRow.mk "sess-1" 990] }

open session_lifecycle in
/-- A database with one imageless open session. -/
def imagelessDb : Db :=
  { capture_session := [CaptureSessionRow.mk "sess-1" "closed"],
    capture_image := [] }

end fixtures

/-! ### Theorems: comparison and sorting toolkit -/

theorem natCmp_eq_iff {a b : Nat} : natCmp a b = .eq ↔ a = b := by
  unfold natCmp
  split
  · constructor
    · intro h; cases h
    · intro h; omega
  · split
    · constructor
      · intro h; cases h
      · intro h; omega
    · constructor
      · intro _; omega
      · intro _; rfl

theorem natCmp_swap (a b : Nat) : (natCmp a b).swap = natCmp b a := by
  unfold natCmp
  rcases Nat.lt_trichotomy a b with h | h | h
  · simp only [if_pos h, if_neg (Nat.lt_asymm h), if_neg (by omega : ¬b < a)]
    rfl
  · simp only [if_neg (by omega : ¬a < b), if_neg (by omega : ¬b < a)]
    rfl
  · simp only [if_neg (Nat.lt_asymm h), if_pos h, if_neg (by omega : ¬a < b)]
    rfl

theorem natCmp_lt_trans {a b c : Nat} (h₁ : natCmp a b = .lt) (h₂ : natCmp b c = .lt) :
    natCmp a c = .lt := by
  unfold natCmp at *
  split at h₁ <;> split at h₂ <;> simp_all
  omega

theorem cmpLex_eq_iff (f : β → β → Ordering) (feq : ∀ a b, f a b = .eq ↔ a = b) :
    ∀ l₁ l₂ : List β, cmpLex f l₁ l₂ = .eq ↔ l₁ = l₂
  | [], [] => by simp [cmpLex]
  | [], _ :: _ => by simp [cmpLex]
  | _ :: _, [] => by simp [cmpLex]
  | a :: as, b :: bs => by
    simp only [cmpLex]
    cases h : f a b with
    | eq => simp [cmpLex_eq_iff f feq as bs, (feq a b).mp h]
    | lt =>
      constructor
      · intro hc; cases hc
      · rintro ⟨rfl, rfl⟩
        rw [(feq a a).mpr rfl] at h; cases h
    | gt =>
      constructor
      · intro hc; cases hc
      · rintro ⟨rfl, rfl⟩
        rw [(feq a a).mpr rfl] at h; cases h

theorem cmpLex_swap (f : β → β → Ordering) (fswap : ∀ a b, (f a b).swap = f b a) :
    ∀ l₁ l₂ : List β, (cmpLex f l₁ l₂).swap = cmpLex f l₂ l₁
  | [], [] => by simp [cmpLex, Ordering.swap]
  | [], _ :: _ => by simp [cmpLex, Ordering.swap]
  | _ :: _, [] => by simp [cmpLex, Ordering.swap]
  | a :: as, b :: bs => by
    simp only [cmpLex]
    cases h : f a b with
    | eq =>
      have hba : f b a = .eq := by rw [← fswap a b, h]; rfl
      rw [hba]
      exact cmpLex_swap f fswap as bs
    | lt =>
      have hba : f b a = .gt := by rw [← fswap a b, h]; rfl
      rw [hba]; rfl
    | gt =>
      have hba : f b a = .lt := by rw [← fswap a b, h]; rfl
      rw [hba]; rfl

theorem cmpLex_lt_trans (f : β → β → Ordering)
    (feq : ∀ a b, f a b = .eq ↔ a = b)
    (ftrans : ∀ {a b c}, f a b = .lt → f b c = .lt → f a c = .lt) :
    ∀ (l₁ l₂ l₃ : List β), cmpLex f l₁ l₂ = .lt → cmpLex f l₂ l₃ = .lt →
      cmpLex f l₁ l₃ = .lt := by
  intro l₁
  induction l₁ with
  | nil =>
    intro l₂ l₃ h₁ h₂
    cases l₂ with
    | nil => exact h₂
    | cons b bs =>
      cases l₃ with
      | nil => simp [cmpLex] at h₂
      | cons c cs => simp [cmpLex]
  | cons a as ih =>
    intro l₂ l₃ h₁ h₂
    cases l₂ with
    | nil => simp [cmpLex] at h₁
    | cons b bs =>
      cases l₃ with
      | nil => simp [cmpLex] at h₂
      | cons c cs =>
        simp only [cmpLex] at h₁ h₂ ⊢
        cases hab : f a b with
        | gt => rw [hab] at h₁; cases h₁
        | eq =>
          rw [hab] at h₁
          have hab' : a = b := (feq a b).mp hab
          cases hbc : f b c with
          | gt => rw [hbc] at h₂; cases h₂
          | eq =>
            rw [hbc] at h₂
            have hbc' : b = c := (feq b c).mp hbc
            have hac : f a c = .eq := by
              rw [hab', hbc']; exact (feq c c).mpr rfl
            rw [hac]
            exact ih bs cs h₁ h₂
          | lt =>
            have hac : f a c = .lt := by rw [hab']; exact hbc
            rw [hac]
        | lt =>
          cases hbc : f b c with
          | gt => rw [hbc] at h₂; cases h₂
          | eq =>
            have hbc' : b = c := (feq b c).mp hbc
            have hac : f a c = .lt := by rw [← hbc']; exact hab
            rw [hac]
          | lt => rw [ftrans hab hbc]

theorem nlCmp_eq_iff {a b : List Nat} : nlCmp a b = .eq ↔ a = b :=
  cmpLex_eq_iff natCmp (fun _ _ => natCmp_eq_iff) a b

theorem nlCmp_swap (a b : List Nat) : (nlCmp a b).swap = nlCmp b a :=
  cmpLex_swap natCmp natCmp_swap a b

theorem nlCmp_lt_trans {a b c : List Nat} :
    nlCmp a b = .lt → nlCmp b c = .lt → nlCmp a c = .lt :=
  cmpLex_lt_trans natCmp (fun _ _ => natCmp_eq_iff) natCmp_lt_trans a b c

theorem nkCmp_eq_iff {a b : NKey} : nkCmp a b = .eq ↔ a = b :=
  cmpLex_eq_iff nlCmp (fun _ _ => nlCmp_eq_iff) a b

theorem nkCmp_swap (a b : NKey) : (nkCmp a b).swap = nkCmp b a :=
  cmpLex_swap nlCmp nlCmp_swap a b

theorem nkCmp_lt_trans {a b c : NKey} :
    nkCmp a b = .lt → nkCmp b c = .lt → nkCmp a c = .lt :=
  cmpLex_lt_trans nlCmp (fun _ _ => nlCmp_eq_iff) nlCmp_lt_trans a b c

theorem nkLeB_iff {a b : NKey} : nkLeB a b = true ↔ nkCmp a b ≠ .gt := by
  unfold nkLeB
  cases h : nkCmp a b <;> simp

theorem nkLeB_total (a b : NKey) : nkLeB a b = true ∨ nkLeB b a = true := by
  rw [nkLeB_iff, nkLeB_iff]
  by_cases h : nkCmp a b = .gt
  · right
    have := nkCmp_swap a b
    rw [h] at this
    rw [← this]
    intro hc; cases hc
  · left; exact h

theorem nkLeB_antisymm {a b : NKey} (h₁ : nkLeB a b = true) (h₂ : nkLeB b a = true) :
    a = b := by
  rw [nkLeB_iff] at h₁ h₂
  have hs := nkCmp_swap a b
  cases h : nkCmp a b with
  | eq => exact nkCmp_eq_iff.mp h
  | lt => rw [h] at hs; exact absurd hs.symm h₂
  | gt => exact absurd h h₁

theorem nkLeB_trans {a b c : NKey} (h₁ : nkLeB a b = true) (h₂ : nkLeB b c = true) :
    nkLeB a c = true := by
  rw [nkLeB_iff] at *
  cases hab : nkCmp a b with
  | eq => rw [nkCmp_eq_iff.mp hab]; exact h₂
  | gt => exact absurd hab h₁
  | lt =>
    cases hbc : nkCmp b c with
    | eq => rw [← nkCmp_eq_iff.mp hbc]; rw [hab]; intro hc; cases hc
    | gt => exact absurd hbc h₂
    | lt => rw [nkCmp_lt_trans hab hbc]; intro hc; cases hc

theorem keyRel_total (key : α → NKey) (a b : α) : keyRel key a b ∨ keyRel key b a :=
  nkLeB_total (key a) (key b)

theorem keyRel_trans {key : α → NKey} {a b c : α}
    (h₁ : keyRel key a b) (h₂ : keyRel key b c) : keyRel key a c :=
  nkLeB_trans h₁ h₂

theorem keyRel_antisymm_key {key : α → NKey} {a b : α}
    (h₁ : keyRel key a b) (h₂ : keyRel key b a) : key a = key b :=
  nkLeB_antisymm h₁ h₂

theorem orderedInsertKey_perm (key : α → NKey) (a : α) :
    ∀ l : List α, (orderedInsertKey key a l).Perm (a :: l)
  | [] => List.Perm.refl _
  | b :: l => by
    unfold orderedInsertKey
    by_cases h : nkLeB (key a) (key b) = true
    · rw [if_pos h]
    · rw [if_neg h]
      exact ((orderedInsertKey_perm key a l).cons b).trans (List.Perm.swap a b l)

theorem sortByKey_perm (key : α → NKey) : ∀ l : List α, (sortByKey key l).Perm l
  | [] => List.Perm.refl _
  | b :: l =>
    (orderedInsertKey_perm key b (sortByKey key l)).trans
      ((sortByKey_perm key l).cons b)

theorem sortByKey_mem {key : α → NKey} {l : List α} {a : α} :
    a ∈ sortByKey key l ↔ a ∈ l :=
  (sortByKey_perm key l).mem_iff

theorem mem_orderedInsertKey {key : α → NKey} {l : List α} {a x : α} :
    x ∈ orderedInsertKey key a l ↔ x = a ∨ x ∈ l := by
  rw [(orderedInsertKey_perm key a l).mem_iff, List.mem_cons]

theorem orderedInsertKey_pairwise {key : α → NKey} {l : List α} (a : α)
    (h : l.Pairwise (keyRel key)) :
    (orderedInsertKey key a l).Pairwise (keyRel key) := by
  induction l with
  | nil => simp [orderedInsertKey, List.Pairwise.nil]
  | cons b l ih =>
    unfold orderedInsertKey
    by_cases hab : nkLeB (key a) (key b) = true
    · rw [if_pos hab]
      refine List.Pairwise.cons ?_ h
      intro x hx
      rcases List.mem_cons.mp hx with rfl | hx
      · exact hab
      · exact keyRel_trans hab (List.rel_of_pairwise_cons h hx)
    · rw [if_neg hab]
      have hba : keyRel key b a := by
        rcases keyRel_total key a b with h' | h'
        · exact absurd h' hab
        · exact h'
      refine List.Pairwise.cons ?_ (ih (List.Pairwise.sublist (List.sublist_cons_self b l) h))
      intro x hx
      rcases mem_orderedInsertKey.mp hx with rfl | hx
      · exact hba
      · exact List.rel_of_pairwise_cons h hx

theorem sortByKey_pairwise (key : α → NKey) :
    ∀ l : List α, (sortByKey key l).Pairwise (keyRel key)
  | [] => List.Pairwise.nil
  | b :: l => orderedInsertKey_pairwise b (sortByKey_pairwise key l)

/-- Two key-sorted lists that are permutations of one another are equal
when the sort key is injective on their members. -/
theorem eq_of_perm_sorted_inj (key : α → NKey) :
    ∀ {l₁ l₂ : List α}, l₁.Perm l₂ → l₁.Pairwise (keyRel key) →
      l₂.Pairwise (keyRel key) →
      (∀ x ∈ l₁, ∀ y ∈ l₁, key x = key y → x = y) → l₁ = l₂
  | [], l₂, hp, _, _, _ => (hp.nil_eq).symm ▸ rfl
  | a :: t, [], hp, _, _, _ => absurd hp.symm (by simp)
  | a :: t, b :: s, hp, h₁, h₂, hinj => by
    by_cases hab : a = b
    · subst hab
      have ht := hp.cons_inv
      have := eq_of_perm_sorted_inj key ht (List.Pairwise.sublist (List.sublist_cons_self a t) h₁)
        (List.Pairwise.sublist (List.sublist_cons_self a s) h₂)
        (fun x hx y hy hk => hinj x (List.mem_cons_of_mem _ hx)
          y (List.mem_cons_of_mem _ hy) hk)
      rw [this]
    · exfalso
      have hbmem : b ∈ a :: t := hp.mem_iff.mpr (List.mem_cons_self b s)
      have hamem : a ∈ b :: s := hp.mem_iff.mp (List.mem_cons_self a t)
      have hbt : b ∈ t := by
        rcases List.mem_cons.mp hbmem with h | h
        · exact absurd h.symm hab
        · exact h
      have has : a ∈ s := by
        rcases List.mem_cons.mp hamem with h | h
        · exact absurd h hab
        · exact h
      have hle₁ : keyRel key a b := List.rel_of_pairwise_cons h₁ hbt
      have hle₂ : keyRel key b a := List.rel_of_pairwise_cons h₂ has
      exact hab (hinj a (List.mem_cons_self a t) b hbmem
        (keyRel_antisymm_key hle₁ hle₂))

/-- Dropping a common-length suffix of key components preserves the key
order (used to project a sort over `(fields..., tiebreak...)` down to a
sort over `fields...`). -/
theorem nkLeB_append (k₁ k₂ e₁ e₂ : NKey) (hlen : k₁.length = k₂.length)
    (h : nkLeB (k₁ ++ e₁) (k₂ ++ e₂) = true) : nkLeB k₁ k₂ = true := by
  rw [nkLeB_iff] at h ⊢
  induction k₁ generalizing k₂ with
  | nil =>
    cases k₂ with
    | nil => intro hc; cases hc
    | cons b bs => cases hlen
  | cons a as ih =>
    cases k₂ with
    | nil => cases hlen
    | cons b bs =>
      unfold nkCmp at h ⊢
      simp only [List.cons_append, cmpLex] at h ⊢
      cases hab : nlCmp a b with
      | eq =>
        rw [hab] at h
        exact ih bs (by simpa using hlen) h
      | lt => intro hc; cases hc
      | gt => rw [hab] at h; exact absurd rfl h

/-! ### Theorems: entity identity normalization -/

namespace entity_identity

theorem flatten_filter_nonempty (L : List (List Nat)) :
    (L.filter (fun w => !w.isEmpty)).flatten = L.flatten := by
  induction L with
  | nil => rfl
  | cons w ws ih =>
    cases w with
    | nil => simpa using ih
    | cons c cs => simp [List.filter_cons, ih]

theorem splitByRaw_flatten (p : Nat → Bool) (s : List Nat) :
    (splitByRaw p s).flatten = s.filter (fun c => !p c) := by
  induction s with
  | nil => rfl
  | cons c cs ih =>
    simp only [splitByRaw]
    by_cases h : p c = true
    · simp [h, List.filter_cons, ih]
    · have hb : p c = false := by simpa using h
      cases hacc : splitByRaw p cs with
      | nil =>
        have hnil : cs.filter (fun c => !p c) = [] := by
          rw [← ih, hacc]; rfl
        simp [hb, hacc, List.filter_cons, hnil]
      | cons w ws =>
        have hmain := ih
        rw [hacc] at hmain
        simp only [hb, Bool.false_eq_true, if_false, hacc, List.filter_cons,
          Bool.not_false, if_true]
        simp only [List.flatten_cons] at hmain ⊢
        simp [hmain, hb]

theorem splitBy_flatten (p : Nat → Bool) (s : List Nat) :
    (splitBy p s).flatten = s.filter (fun c => !p c) := by
  rw [splitBy, flatten_filter_nonempty, splitByRaw_flatten]

theorem splitBy_words_ne_nil (p : Nat → Bool) (s : List Nat) :
    ∀ w ∈ splitBy p s, w ≠ [] := by
  intro w hw
  have := List.of_mem_filter hw
  simpa using this

theorem joinSp_mapFilter (f : Nat → Nat) (g : Nat → Bool) (hg : g (f 32) = false) :
    ∀ L : List (List Nat), ((joinSp L).map f).filter g = (L.flatten.map f).filter g
  | [] => rfl
  | [w] => by simp [joinSp, List.intersperse]
  | w :: w' :: L => by
    have ih := joinSp_mapFilter f g hg (w' :: L)
    have hsplit : joinSp (w :: w' :: L) = w ++ ([32] ++ joinSp (w' :: L)) := by
      simp [joinSp, List.intersperse_cons₂]
    rw [hsplit, List.map_append, List.filter_append, List.map_append,
      List.filter_append, List.flatten_cons, List.map_append, List.filter_append]
    have h32 : List.filter g (List.map f [32]) = [] := by simp [hg]
    rw [h32, ih]
    simp

theorem collapse_mapFilter (f : Nat → Nat) (g : Nat → Bool)
    (hg : ∀ c, isPySpaceCode c = true → g (f c) = false) (s : List Nat) :
    ((collapse s).map f).filter g = (s.map f).filter g := by
  have h32 : g (f 32) = false := hg 32 (by decide)
  have hsep : (((s.filter (fun c => !isPySpaceCode c)).map f).filter g) =
      ((s.map f).filter g) := by
    induction s with
    | nil => rfl
    | cons c cs ih =>
      by_cases h : isPySpaceCode c = true
      · simp [List.filter_cons, h, hg c h, ih]
      · have hb : isPySpaceCode c = false := by simpa using h
        simp [List.filter_cons, hb, ih]
  rw [collapse, joinSp_mapFilter f g h32, splitBy_flatten, hsep]

theorem joinSp_cons_exists (w : List Nat) (ws : List (List Nat)) :
    ∃ t, joinSp (w :: ws) = w ++ t := by
  cases ws with
  | nil => exact ⟨[], by simp [joinSp, List.intersperse]⟩
  | cons w' ws' =>
    exact ⟨[32] ++ (List.intersperse [32] (w' :: ws')).flatten,
      by simp [joinSp, List.intersperse_cons₂]⟩

theorem collapse_eq_nil_iff {s : List Nat} :
    collapse s = [] ↔ s.filter (fun c => !isPySpaceCode c) = [] := by
  rw [← splitBy_flatten isPySpaceCode s]
  unfold collapse
  cases h : splitBy isPySpaceCode s with
  | nil => simp [joinSp]
  | cons w ws =>
    have hw : w ≠ [] := splitBy_words_ne_nil _ _ w (h ▸ List.mem_cons_self w ws)
    obtain ⟨t, ht⟩ := joinSp_cons_exists w ws
    constructor
    · intro hj
      rw [ht] at hj
      exact absurd (List.append_eq_nil.mp hj).1 hw
    · intro hj
      rw [List.flatten_cons] at hj
      exact absurd (List.append_eq_nil.mp hj).1 hw

theorem normalize_component_eq (s : List Nat) :
    normalize_component s =
      ((((normalize_readable_text s).map lowerCode).map confO).map confL).filter
        isLowerAlnumCode := by
  unfold normalize_component
  cases h : (normalize_readable_text s).map lowerCode with
  | nil => simp [h]
  | cons a as => simp [h]

theorem mapFilter_congr (f₁ f₂ : Nat → Nat) (g : Nat → Bool)
    (h : ∀ c, g (f₁ c) = g (f₂ c) ∧ (g (f₂ c) = true → f₁ c = f₂ c)) (s : List Nat) :
    (s.map f₁).filter g = (s.map f₂).filter g := by
  induction s with
  | nil => rfl
  | cons c cs ih =>
    obtain ⟨h₁, h₂⟩ := h c
    cases hk : g (f₂ c) with
    | true =>
      have hk₁ : g (f₁ c) = true := by rw [h₁, hk]
      simp [List.filter_cons, hk, hk₁, h₂ hk, ih]
    | false =>
      have hk₁ : g (f₁ c) = false := by rw [h₁, hk]
      simp [List.filter_cons, hk, hk₁, ih]

theorem canon_pointwise (a : Nat) :
    isLowerAlnumCode (confL (confO (lowerCode (if allowedReadableCode a then a else 32)))) =
        isLowerAlnumCode (confLA (confO (lowerCode a))) ∧
      (isLowerAlnumCode (confLA (confO (lowerCode a))) = true →
        confL (confO (lowerCode (if allowedReadableCode a then a else 32))) =
          confLA (confO (lowerCode a))) := by
  unfold isLowerAlnumCode confL confLA confO lowerCode allowedReadableCode isPySpaceCode
  split_ifs <;> simp_all <;> omega

theorem space_fused_dropped {c : Nat} (h : isPySpaceCode c = true) :
    isLowerAlnumCode (confL (confO (lowerCode c))) = false := by
  simp only [isPySpaceCode, decide_eq_true_eq] at h
  rcases h with rfl | rfl | rfl | rfl | rfl | rfl <;> decide

theorem space_canonA_dropped {c : Nat} (h : isPySpaceCode c = true) :
    isLowerAlnumCode (canonCodeA c) = false := by
  simp only [isPySpaceCode, decide_eq_true_eq] at h
  rcases h with rfl | rfl | rfl | rfl | rfl | rfl <;> decide

theorem space_full_dropped {c : Nat} (h : isPySpaceCode c = true) :
    isLowerAlnumCode (confL (confO (lowerCode
      (if allowedReadableCode (stripAccentCode c) then stripAccentCode c else 32)))) =
      false := by
  simp only [isPySpaceCode, decide_eq_true_eq] at h
  rcases h with rfl | rfl | rfl | rfl | rfl | rfl <;> decide

/-- The staged `_normalize_component` pipeline is the fused canonical map
followed by the lowercase-alphanumeric filter. -/
theorem normalize_component_fused (s : List Nat) :
    normalize_component s = (s.map canonCodeA).filter isLowerAlnumCode := by
  rw [normalize_component_eq]
  unfold normalize_readable_text
  by_cases h : collapse s = []
  · rw [if_pos h]
    simp only [List.map_nil, List.filter_nil]
    have hs := collapse_eq_nil_iff.mp h
    have hall : ∀ c ∈ s, isPySpaceCode c = true := by
      intro c hc
      by_contra hcon
      have : c ∈ s.filter (fun c => !isPySpaceCode c) :=
        List.mem_filter.mpr ⟨hc, by simpa using hcon⟩
      rw [hs] at this
      cases this
    symm
    rw [List.filter_eq_nil_iff]
    intro a ha
    obtain ⟨c, hc, rfl⟩ := List.mem_map.mp ha
    simp [space_canonA_dropped (hall c hc)]
  · rw [if_neg h]
    simp only [List.map_map, Function.comp_def]
    rw [collapse_mapFilter (fun c => confL (confO (lowerCode c))) isLowerAlnumCode
      (fun c hc => space_fused_dropped hc)]
    simp only [List.map_map, Function.comp_def]
    rw [collapse_mapFilter
      (fun c => confL (confO (lowerCode
        (if allowedReadableCode (stripAccentCode c) then stripAccentCode c else 32))))
      isLowerAlnumCode (fun c hc => space_full_dropped hc)]
    refine mapFilter_congr _ _ _ (fun c => ?_) s
    simpa using canon_pointwise (stripAccentCode c)

/-- Related code points either both survive normalization with the same
canonical image or are both erased, so equivalent inputs normalize
identically. -/
theorem normalize_component_of_addrEquiv {s t : List Nat} (h : AddrEquiv s t) :
    normalize_component s = normalize_component t := by
  rw [normalize_component_fused, normalize_component_fused]
  induction h with
  | nil => rfl
  | rel hcd _ ih =>
    rename_i c d cs ds _
    cases hk : isLowerAlnumCode (canonCodeA d) with
    | true =>
      have hk' : isLowerAlnumCode (canonCodeA c) = true := by rw [hcd, hk]
      simp [List.filter_cons, hk, hk', hcd, ih]
    | false =>
      have hk' : isLowerAlnumCode (canonCodeA c) = false := by rw [hcd, hk]
      simp [List.filter_cons, hk, hk', ih]
  | wsL hc _ ih =>
    rename_i c cs ds _
    simp [List.filter_cons, space_canonA_dropped hc, ih]
  | wsR hd _ ih =>
    rename_i d cs ds _
    simp [List.filter_cons, space_canonA_dropped hd, ih]

/-- Strings whose canonical images agree code point for code point are
`AddrEquiv`. -/
theorem addrEquiv_of_canon_map : ∀ {s t : List Nat},
    s.map canonCodeA = t.map canonCodeA → AddrEquiv s t
  | [], [], _ => .nil
  | _ :: _, _ :: _, h => by
    simp only [List.map_cons, List.cons.injEq] at h
    exact .rel h.1 (addrEquiv_of_canon_map h.2)
  | [], _ :: _, h => by simp at h
  | _ :: _, [], h => by simp at h

end entity_identity

/-! ### Claim theorems -/

open entity_identity in
/-- C4 (counterexample): the claim includes the pipe in the confusable
class `1↔i↔l↔|`, but the pipe is erased as punctuation before the
confusable fold, so substituting `|` for `l` changes the fingerprint. -/
theorem location_fingerprint_pipe_changes :
    location_fingerprint "Va|ebergsvagen" "316" "" "Billdal" ≠
      location_fingerprint "Valebergsvagen" "316" "" "Billdal" := by
  decide

open entity_identity in
/-- C4 (amended): two address inputs that differ only by letter case,
accents, whitespace, or the OCR confusable substitutions 0↔o and 1↔i↔l
(without the pipe), and whose postal areas are empty together or nonempty
together, have the identical location fingerprint. -/
theorem location_fingerprint_ocr_invariant
    (street₁ street₂ number₁ number₂ postal₁ postal₂ city₁ city₂ : String)
    (hs : AddrEquiv (codes street₁) (codes street₂))
    (hn : AddrEquiv (codes number₁) (codes number₂))
    (hp : AddrEquiv (codes postal₁) (codes postal₂))
    (hc : AddrEquiv (codes city₁) (codes city₂))
    (hpe : postal₁ = "" ↔ postal₂ = "") :
    location_fingerprint street₁ number₁ postal₁ city₁ =
      location_fingerprint street₂ number₂ postal₂ city₂ := by
  unfold location_fingerprint
  by_cases h1 : postal₁ = ""
  · have h2 : postal₂ = "" := hpe.mp h1
    rw [if_pos h1, if_pos h2]
    dsimp only
    rw [normalize_component_of_addrEquiv hs,
      normalize_component_of_addrEquiv hn, normalize_component_of_addrEquiv hc]
  · have h2 : ¬postal₂ = "" := fun hh => h1 (hpe.mpr hh)
    rw [if_neg h1, if_neg h2]
    dsimp only
    rw [normalize_component_of_addrEquiv hs,
      normalize_component_of_addrEquiv hn, normalize_component_of_addrEquiv hp]

open entity_identity in
/-- C4 (witness): accented and cased street, whitespace-padded number
with the `I↔1` confusion, and cased city with `1↔l` confusions, against
their plain forms. -/
theorem location_fingerprint_ocr_invariant_witness :
    entity_identity.location_fingerprint "Vålebergsvägen" "3I6" "" "BILLDAL" =
      entity_identity.location_fingerprint "valebergsvagen" " 316 " "" "Bi11dal" :=
  location_fingerprint_ocr_invariant _ _ _ _ _ _ _ _
    (addrEquiv_of_canon_map (by decide))
    (.wsR (by decide) (.rel (by decide) (.rel (by decide) (.rel (by decide)
      (.wsR (by decide) .nil)))))
    (addrEquiv_of_canon_map (by decide))
    (addrEquiv_of_canon_map (by decide))
    (by decide)

/-- C1: on the repository's own test input for a type-only change
(stage 1 match with equal times and customer name, different
`shift_type`), `src/domain/schedule_diff.py` emits no event at all — it
defines no reclassified variant — while the backfill-runner copy of the
same function emits the `ShiftReclassified` event the claim (and the
repository's own `test_schedule_diff.py` and worker) expect. -/
theorem diff_domain_drops_reclassification :
    schedule_diff.diff_schedules [fixtures.officeBefore] [fixtures.officeAfter]
        "2026-08-22" = [] ∧
      local_backfill_runner.diff_schedules [fixtures.officeBefore]
          [fixtures.officeAfter] "2026-08-22" =
        [.ShiftReclassified "2026-08-22" fixtures.officeBefore
          fixtures.officeAfter] := by
  constructor
  · decide
  · decide

/-- C2: on a duplicate-identity group (old starts 08:00 and 15:00, new
starts 15:00 and 16:00), `src/domain/schedule_diff.py` pairs stage 1
positionally and emits two `ShiftTimeChanged` events, while the greedy
smallest-time-distance pairing the claim describes (implemented by the
backfill-runner copy) pairs 15:00 with 15:00 and emits exactly one. -/
theorem diff_domain_pairs_by_index_not_distance :
    schedule_diff.diff_schedules [fixtures.dupOld1, fixtures.dupOld2]
        [fixtures.dupNew1, fixtures.dupNew2] "2026-08-22" =
      [.ShiftTimeChanged "2026-08-22" fixtures.dupOld1 fixtures.dupNew1,
       .ShiftTimeChanged "2026-08-22" fixtures.dupOld2 fixtures.dupNew2] ∧
    local_backfill_runner.diff_schedules [fixtures.dupOld1, fixtures.dupOld2]
        [fixtures.dupNew1, fixtures.dupNew2] "2026-08-22" =
      [.ShiftTimeChanged "2026-08-22" fixtures.dupOld1 fixtures.dupNew2] := by
  constructor
  · decide
  · decide

/-- C3 (counterexample): reordering two shifts that differ only by
customer-name case — a permutation with no content change, under a valid
ISO date — makes the diff emit events: the stable stage-1 sort key
casefolds the customer name, so it ties on the pair and cannot restore a
canonical order, and the positional pairing then matches `anna` with
`Anna` twice, emitting two `ShiftRetitled` events. -/
theorem diff_reorder_emits_on_case_tie :
    isValidIsoDate "2026-08-22" = true ∧
      [fixtures.annaUpper, fixtures.annaLower].Perm
        [fixtures.annaLower, fixtures.annaUpper] ∧
      schedule_diff.diff_schedules [fixtures.annaLower, fixtures.annaUpper]
        [fixtures.annaUpper, fixtures.annaLower] "2026-08-22" ≠ [] := by
  refine ⟨by decide, by decide, by decide⟩

/-- C6: the merged cluster times are the modular union — both intervals
unwrapped against the cluster start anchor by the rotation minimizing the
distance to the anchor, minimum of starts and maximum of ends, re-wrapped
mod 1440 — and aggregating `(08:00–10:00)` with `(08:02–10:01)` at one
location yields one shift with `source_count` 2 and times
`(08:00–10:01)`. -/
theorem merge_shift_modular_union :
    (∀ base incoming : CanonicalShift,
      (session_aggregate.merge_shift base incoming).start =
          session_aggregate.from_minutes_mod
            (min (session_aggregate.unwrap_interval base (minutesOf base.start)).1
              (session_aggregate.unwrap_interval incoming (minutesOf base.start)).1) ∧
        (session_aggregate.merge_shift base incoming).end_ =
          session_aggregate.from_minutes_mod
            (max (session_aggregate.unwrap_interval base (minutesOf base.start)).2
              (session_aggregate.unwrap_interval incoming (minutesOf base.start)).2)) ∧
    (∀ value anchor : Int,
      (session_aggregate.unwrap_minutes_near value anchor = value - 1440 ∨
        session_aggregate.unwrap_minutes_near value anchor = value ∨
        session_aggregate.unwrap_minutes_near value anchor = value + 1440) ∧
      (session_aggregate.unwrap_minutes_near value anchor - anchor).natAbs ≤
          (value - 1440 - anchor).natAbs ∧
      (session_aggregate.unwrap_minutes_near value anchor - anchor).natAbs ≤
          (value - anchor).natAbs ∧
      (session_aggregate.unwrap_minutes_near value anchor - anchor).natAbs ≤
          (value + 1440 - anchor).natAbs) ∧
    (session_aggregate.aggregate_session_shifts
        [[fixtures.jitterA1], [fixtures.jitterA2]] "2026-08-22" 5).shifts.map
      (fun s => (s.shift.start, s.shift.end_, s.source_count)) =
      [("08:00", "10:01", 2)] := by
  refine ⟨fun base incoming => ⟨rfl, rfl⟩, fun value anchor => ?_, by decide⟩
  unfold session_aggregate.unwrap_minutes_near
  dsimp only
  constructor
  · split_ifs <;> omega
  · split_ifs <;> refine ⟨?_, ?_, ?_⟩ <;> omega

theorem map_filter_comp (f : α → β) (p : β → Bool) :
    ∀ l : List α, (l.filter (fun x => p (f x))).map f = (l.map f).filter p
  | [] => rfl
  | x :: xs => by
    by_cases h : p (f x) = true
    · simp [List.filter_cons, h, map_filter_comp f p xs]
    · simp [List.filter_cons, h, map_filter_comp f p xs]

theorem codes_inj {s t : String} (h : codes s = codes t) : s = t := by
  apply String.ext
  exact List.map_injective_iff.mpr
    (fun a b hab => Char.ext (UInt32.toNat.inj hab)) h

theorem zip_map_eq (f : α → β) :
    ∀ (a b : List α), a.map f = b.map f → ∀ p ∈ a.zip b, f p.1 = f p.2
  | [], _, _, p, hp => by cases hp
  | _ :: _, [], _, p, hp => by cases hp
  | x :: xs, y :: ys, h, p, hp => by
    simp only [List.map_cons, List.cons.injEq] at h
    rcases List.mem_cons.mp (by simpa [List.zip_cons_cons] using hp) with rfl | hrest
    · exact h.1
    · exact zip_map_eq f xs ys h.2 p hrest

theorem flatMap_filter_nil (p : β → Bool) (f : α → List β) :
    ∀ l : List α, (∀ x ∈ l, (f x).filter p = []) → (l.flatMap f).filter p = []
  | [], _ => rfl
  | x :: xs, h => by
    simp only [List.flatMap_cons, List.filter_append, h x (List.mem_cons_self x xs),
      List.nil_append]
    exact flatMap_filter_nil p f xs fun y hy => h y (List.mem_cons_of_mem x hy)

theorem flatMap_filter_unique (p : β → Bool) (f : α → List β)
    (l : List α) (k : α) (hk : k ∈ l) (hnodup : l.Nodup)
    (hothers : ∀ x ∈ l, x ≠ k → (f x).filter p = []) :
    (l.flatMap f).filter p = (f k).filter p := by
  induction l with
  | nil => cases hk
  | cons x xs ih =>
    simp only [List.flatMap_cons, List.filter_append]
    by_cases hx : x = k
    · subst hx
      have hxs : ∀ y ∈ xs, (f y).filter p = [] := by
        intro y hy
        have hyne : y ≠ x := fun hh => (List.nodup_cons.mp hnodup).1 (hh ▸ hy)
        exact hothers y (List.mem_cons_of_mem x hy) hyne
      rw [flatMap_filter_nil p f xs hxs, List.append_nil]
    · rw [hothers x (List.mem_cons_self x xs) hx, List.nil_append]
      rcases List.mem_cons.mp hk with h | h
      · exact absurd h.symm hx
      · exact ih h (List.nodup_cons.mp hnodup).2
          fun y hy hyk => hothers y (List.mem_cons_of_mem x hy) hyk

namespace schedule_diff

theorem enumRefs_map_shift (l : List CanonicalShift) :
    (enumRefs l).map (fun r => r.shift) = l := by
  unfold enumRefs
  rw [List.map_map]
  exact List.enum_map_snd l

theorem enumRefs_filter_map_shift (l : List CanonicalShift) (p : CanonicalShift → Bool) :
    ((enumRefs l).filter (fun r => p r.shift)).map (fun r => r.shift) = l.filter p := by
  rw [map_filter_comp (fun r : ShiftRef => r.shift) p (enumRefs l), enumRefs_map_shift]

/-- Projecting the full stable sort (key plus sequence tiebreak) down to
the shift fields: two sorted groups with the same shift multiset and a
key injective on those shifts list identical shift sequences. -/
theorem sorted_group_shifts_eq {A B : List ShiftRef}
    (hperm : (A.map (fun r => r.shift)).Perm (B.map (fun r => r.shift)))
    (hinj : ∀ x ∈ A.map (fun r => r.shift), ∀ y ∈ A.map (fun r => r.shift),
      ref_sort_key_shift x = ref_sort_key_shift y → x = y) :
    (sortByKey ref_sort_key A).map (fun r => r.shift) =
      (sortByKey ref_sort_key B).map (fun r => r.shift) := by
  have hproj : ∀ C : List ShiftRef,
      ((sortByKey ref_sort_key C).map (fun r => r.shift)).Pairwise
        (keyRel ref_sort_key_shift) := by
    intro C
    rw [List.pairwise_map]
    refine (sortByKey_pairwise ref_sort_key C).imp ?_
    intro a b hab
    exact nkLeB_append (ref_sort_key_shift a.shift) (ref_sort_key_shift b.shift)
      [[a.sequence]] [[b.sequence]] rfl hab
  have hpermA : ((sortByKey ref_sort_key A).map (fun r => r.shift)).Perm
      (A.map (fun r => r.shift)) := (sortByKey_perm ref_sort_key A).map _
  have hpermB : ((sortByKey ref_sort_key B).map (fun r => r.shift)).Perm
      (B.map (fun r => r.shift)) := (sortByKey_perm ref_sort_key B).map _
  apply eq_of_perm_sorted_inj ref_sort_key_shift
    (hpermA.trans (hperm.trans hpermB.symm)) (hproj A) (hproj B)
  intro x hx y hy
  exact hinj x (hpermA.mem_iff.mp hx) y (hpermA.mem_iff.mp hy)

theorem stage1_event_none (d : String) {p : ShiftRef × ShiftRef}
    (h : p.1.shift = p.2.shift) : stage1_event d p = none := by
  unfold stage1_event
  rw [h]
  simp

/-- On permuted inputs with a key injective on the shifts, `_pair_by_key`
pairs every old ref with a new ref carrying the identical shift and
leaves no remainder on either side. -/
theorem pair_by_key_perm_all (L M : List CanonicalShift)
    (key : ShiftRef → NKey) (key_s : CanonicalShift → NKey)
    (hkey : ∀ r, key r = key_s r.shift)
    (hperm : M.Perm L)
    (hinj : ∀ x ∈ L, ∀ y ∈ L, ref_sort_key_shift x = ref_sort_key_shift y → x = y) :
    (∀ p ∈ (pair_by_key (enumRefs L) (enumRefs M) key).1, p.1.shift = p.2.shift) ∧
      (pair_by_key (enumRefs L) (enumRefs M) key).2.1 = [] ∧
      (pair_by_key (enumRefs L) (enumRefs M) key).2.2 = [] := by
  have hkeyf : key = fun r => key_s r.shift := funext hkey
  subst hkeyf
  unfold pair_by_key
  dsimp only
  have hfiltL : ∀ k, ((enumRefs L).filter (fun r => key_s r.shift == k)).map
      (fun r => r.shift) = L.filter (fun s => key_s s == k) :=
    fun k => enumRefs_filter_map_shift L (fun s => key_s s == k)
  have hfiltM : ∀ k, ((enumRefs M).filter (fun r => key_s r.shift == k)).map
      (fun r => r.shift) = M.filter (fun s => key_s s == k) :=
    fun k => enumRefs_filter_map_shift M (fun s => key_s s == k)
  have hGroup : ∀ k,
      (sortByKey ref_sort_key ((enumRefs L).filter (fun r => key_s r.shift == k))).map
          (fun r => r.shift) =
        (sortByKey ref_sort_key ((enumRefs M).filter (fun r => key_s r.shift == k))).map
          (fun r => r.shift) := by
    intro k
    apply sorted_group_shifts_eq
    · rw [hfiltL, hfiltM]
      exact (hperm.filter _).symm
    · intro x hx y hy
      rw [hfiltL] at hx hy
      exact hinj x (List.mem_filter.mp hx).1 y (List.mem_filter.mp hy).1
  have hlen : ∀ k,
      (sortByKey ref_sort_key ((enumRefs L).filter (fun r => key_s r.shift == k))).length =
        (sortByKey ref_sort_key ((enumRefs M).filter (fun r => key_s r.shift == k))).length := by
    intro k
    have := congrArg List.length (hGroup k)
    simpa using this
  have hkmem : ∀ r ∈ enumRefs L, key_s r.shift ∈
      sortByKey id (((enumRefs L).map (fun r => key_s r.shift)).filter
        (fun k => ((enumRefs M).map (fun r => key_s r.shift)).contains k)).dedup := by
    intro r hr
    rw [sortByKey_mem, List.mem_dedup, List.mem_filter]
    refine ⟨List.mem_map.mpr ⟨r, hr, rfl⟩, ?_⟩
    have hshiftL : r.shift ∈ L := by
      have : r.shift ∈ (enumRefs L).map (fun r => r.shift) :=
        List.mem_map.mpr ⟨r, hr, rfl⟩
      rwa [enumRefs_map_shift] at this
    have hsM : r.shift ∈ (enumRefs M).map (fun r => r.shift) := by
      rw [enumRefs_map_shift]
      exact hperm.mem_iff.mpr hshiftL
    obtain ⟨r', hr', heq⟩ := List.mem_map.mp hsM
    have : key_s r.shift ∈ (enumRefs M).map (fun r => key_s r.shift) :=
      List.mem_map.mpr ⟨r', hr', by rw [heq]⟩
    simpa using this
  have hkmemM : ∀ r ∈ enumRefs M, key_s r.shift ∈
      sortByKey id (((enumRefs L).map (fun r => key_s r.shift)).filter
        (fun k => ((enumRefs M).map (fun r => key_s r.shift)).contains k)).dedup := by
    intro r hr
    rw [sortByKey_mem, List.mem_dedup, List.mem_filter]
    have hshiftM : r.shift ∈ M := by
      have : r.shift ∈ (enumRefs M).map (fun r => r.shift) :=
        List.mem_map.mpr ⟨r, hr, rfl⟩
      rwa [enumRefs_map_shift] at this
    have hshiftL : r.shift ∈ L := hperm.mem_iff.mp hshiftM
    have hsL : r.shift ∈ (enumRefs L).map (fun r => r.shift) := by
      rw [enumRefs_map_shift]
      exact hshiftL
    obtain ⟨r', hr', heq⟩ := List.mem_map.mp hsL
    refine ⟨List.mem_map.mpr ⟨r', hr', by rw [heq]⟩, ?_⟩
    have : key_s r.shift ∈ (enumRefs M).map (fun r => key_s r.shift) :=
      List.mem_map.mpr ⟨r, hr, rfl⟩
    simpa using this
  refine ⟨?_, ?_, ?_⟩
  · intro p hp
    obtain ⟨k, _, hpz⟩ := List.mem_flatMap.mp hp
    exact zip_map_eq (fun r : ShiftRef => r.shift) _ _ (hGroup k) p hpz
  · rw [List.filter_eq_nil_iff]
    intro r hr hcon
    have hrgrp : r ∈ sortByKey ref_sort_key
        ((enumRefs L).filter (fun r' => key_s r'.shift == key_s r.shift)) := by
      rw [sortByKey_mem, List.mem_filter]
      exact ⟨hr, by simp⟩
    have hzipmem : r ∈ ((sortByKey ref_sort_key
        ((enumRefs L).filter (fun r' => key_s r'.shift == key_s r.shift))).zip
          (sortByKey ref_sort_key
            ((enumRefs M).filter (fun r' => key_s r'.shift == key_s r.shift)))).map
          Prod.fst := by
      rw [List.map_fst_zip _ _ (le_of_eq (hlen (key_s r.shift)))]
      exact hrgrp
    obtain ⟨p, hpz, hpr⟩ := List.mem_map.mp hzipmem
    have hseq : r.sequence ∈
        (((sortByKey id (((enumRefs L).map (fun r => key_s r.shift)).filter
            (fun k => ((enumRefs M).map (fun r => key_s r.shift)).contains k)).dedup).flatMap
          fun k =>
            (sortByKey ref_sort_key ((enumRefs L).filter fun r => key_s r.shift == k)).zip
              (sortByKey ref_sort_key ((enumRefs M).filter fun r => key_s r.shift == k))).map
          fun p => p.1.sequence) :=
      List.mem_map.mpr ⟨p,
        List.mem_flatMap.mpr ⟨key_s r.shift, hkmem r hr, hpz⟩, by rw [hpr]⟩
    have hctrue : ((((sortByKey id (((enumRefs L).map (fun r => key_s r.shift)).filter
            (fun k => ((enumRefs M).map (fun r => key_s r.shift)).contains k)).dedup).flatMap
          fun k =>
            (sortByKey ref_sort_key ((enumRefs L).filter fun r => key_s r.shift == k)).zip
              (sortByKey ref_sort_key ((enumRefs M).filter fun r => key_s r.shift == k))).map
          fun p => p.1.sequence).contains r.sequence) = true :=
      List.elem_eq_true_of_mem hseq
    rw [hctrue] at hcon
    simp at hcon
  · rw [List.filter_eq_nil_iff]
    intro r hr hcon
    have hrgrp : r ∈ sortByKey ref_sort_key
        ((enumRefs M).filter (fun r' => key_s r'.shift == key_s r.shift)) := by
      rw [sortByKey_mem, List.mem_filter]
      exact ⟨hr, by simp⟩
    have hzipmem : r ∈ ((sortByKey ref_sort_key
        ((enumRefs L).filter (fun r' => key_s r'.shift == key_s r.shift))).zip
          (sortByKey ref_sort_key
            ((enumRefs M).filter (fun r' => key_s r'.shift == key_s r.shift)))).map
          Prod.snd := by
      rw [List.map_snd_zip _ _ (le_of_eq (hlen (key_s r.shift)).symm)]
      exact hrgrp
    obtain ⟨p, hpz, hpr⟩ := List.mem_map.mp hzipmem
    have hseq : r.sequence ∈
        (((sortByKey id (((enumRefs L).map (fun r => key_s r.shift)).filter
            (fun k => ((enumRefs M).map (fun r => key_s r.shift)).contains k)).dedup).flatMap
          fun k =>
            (sortByKey ref_sort_key ((enumRefs L).filter fun r => key_s r.shift == k)).zip
              (sortByKey ref_sort_key ((enumRefs M).filter fun r => key_s r.shift == k))).map
          fun p => p.2.sequence) :=
      List.mem_map.mpr ⟨p,
        List.mem_flatMap.mpr ⟨key_s r.shift, hkmemM r hr, hpz⟩, by rw [hpr]⟩
    have hctrue : ((((sortByKey id (((enumRefs L).map (fun r => key_s r.shift)).filter
            (fun k => ((enumRefs M).map (fun r => key_s r.shift)).contains k)).dedup).flatMap
          fun k =>
            (sortByKey ref_sort_key ((enumRefs L).filter fun r => key_s r.shift == k)).zip
              (sortByKey ref_sort_key ((enumRefs M).filter fun r => key_s r.shift == k))).map
          fun p => p.2.sequence).contains r.sequence) = true :=
      List.elem_eq_true_of_mem hseq
    rw [hctrue] at hcon
    simp at hcon

end schedule_diff

open schedule_diff in
/-- C3 (amended): for every valid ISO schedule date, every shift list and
every reordering of it, provided the document stable sort key (location
and customer fingerprints, times, casefolded customer name, casefolded
street, street number, casefolded city) is injective on the shifts, the
diff emits no events: stage 1 pairs every shift with an identical copy
and leaves no remainder for the later stages. -/
theorem diff_schedules_reorder_no_events
    (previous current : List CanonicalShift) (d : String)
    (_hdate : isValidIsoDate d = true)
    (hperm : current.Perm previous)
    (hinj : ∀ x ∈ previous, ∀ y ∈ previous,
      ref_sort_key_shift x = ref_sort_key_shift y → x = y) :
    diff_schedules previous current d = [] := by
  obtain ⟨hpairs, hrem1, hrem2⟩ :=
    pair_by_key_perm_all previous current (stage1_key d)
      (fun s => [codes d, codes s.location_fingerprint,
        codes s.customer_fingerprint])
      (fun r => rfl) hperm hinj
  unfold diff_schedules
  dsimp only
  have h1 : ((pair_by_key (enumRefs previous) (enumRefs current)
      (stage1_key d)).1.filterMap (stage1_event d)) = [] := by
    rw [List.filterMap_eq_nil_iff]
    intro p hp
    exact stage1_event_none d (hpairs p hp)
  rw [h1, hrem1, hrem2]
  rfl

/-- C3 (witness): the spec's reorder scenario — three distinct shifts at
`08:00`, `12:00` and `15:00` presented in a rotated order — produces zero
events. -/
theorem diff_schedules_reorder_no_events_witness :
    isValidIsoDate "2026-08-22" = true ∧
      schedule_diff.diff_schedules
        [fixtures.reorderA, fixtures.reorderB, fixtures.reorderC]
        [fixtures.reorderC, fixtures.reorderA, fixtures.reorderB]
        "2026-08-22" = [] :=
  ⟨by decide, diff_schedules_reorder_no_events
    [fixtures.reorderA, fixtures.reorderB, fixtures.reorderC]
    [fixtures.reorderC, fixtures.reorderA, fixtures.reorderB]
    "2026-08-22" (by decide) (by decide) (by decide)⟩

theorem foldl_map_eq_congr {α β γ : Type} (f : γ → α → γ) (g : α → β)
    (hfact : ∀ acc a b, g a = g b → f acc a = f acc b) :
    ∀ (A B : List α) (init : γ), A.map g = B.map g →
      A.foldl f init = B.foldl f init
  | [], [], _, _ => rfl
  | [], _ :: _, _, h => by simp at h
  | _ :: _, [], _, h => by simp at h
  | a :: as, b :: bs, init, h => by
    simp only [List.map_cons, List.cons.injEq] at h
    simp only [List.foldl_cons]
    rw [hfact init a b h.1]
    exact foldl_map_eq_congr f g hfact as bs (f init b) h.2

namespace session_aggregate

theorem enumImageRefs_map_shift (imgs : List (List CanonicalShift)) :
    (enumImageRefs imgs).map (fun r => r.shift) = imgs.flatten := by
  unfold enumImageRefs
  rw [List.map_flatMap, List.flatMap_def]
  have h1 : ∀ img ∈ imgs.enum,
      ((img.2.enum.map fun p => AggShiftRef.mk img.1 p.1 p.2).map
        (fun r => r.shift)) = img.2 := by
    intro img _
    rw [List.map_map]
    exact List.enum_map_snd img.2
  rw [List.map_congr_left h1,
    show imgs.enum.map (fun img => img.2) = imgs from List.enum_map_snd imgs]

/-- Projecting the in-group stable sort (shift prefix plus index
tiebreak) down to the shifts: two sorted groups with the same shift
multiset and a group key injective on those shifts list identical shift
sequences. -/
theorem sorted_group_key_shifts_eq {A B : List AggShiftRef}
    (hperm : (A.map (fun r => r.shift)).Perm (B.map (fun r => r.shift)))
    (hinj : ∀ x ∈ A.map (fun r => r.shift), ∀ y ∈ A.map (fun r => r.shift),
      group_key_shift x = group_key_shift y → x = y) :
    (sortByKey group_sort_key A).map (fun r => r.shift) =
      (sortByKey group_sort_key B).map (fun r => r.shift) := by
  have hproj : ∀ C : List AggShiftRef,
      ((sortByKey group_sort_key C).map (fun r => r.shift)).Pairwise
        (keyRel group_key_shift) := by
    intro C
    rw [List.pairwise_map]
    refine (sortByKey_pairwise group_sort_key C).imp ?_
    intro a b hab
    exact nkLeB_append (group_key_shift a.shift) (group_key_shift b.shift)
      [[a.image_index], [a.shift_index]] [[b.image_index], [b.shift_index]]
      rfl hab
  have hpermA : ((sortByKey group_sort_key A).map (fun r => r.shift)).Perm
      (A.map (fun r => r.shift)) := (sortByKey_perm group_sort_key A).map _
  have hpermB : ((sortByKey group_sort_key B).map (fun r => r.shift)).Perm
      (B.map (fun r => r.shift)) := (sortByKey_perm group_sort_key B).map _
  apply eq_of_perm_sorted_inj group_key_shift
    (hpermA.trans (hperm.trans hpermB.symm)) (hproj A) (hproj B)
  intro x hx y hy
  exact hinj x (hpermA.mem_iff.mp hx) y (hpermA.mem_iff.mp hy)

/-- `_merge_location_group` reads only the shift of each ref, so two ref
lists whose stable in-group sorts carry the same shift sequence produce
the same clusters. -/
theorem merge_location_group_shifts {A B : List AggShiftRef} (t : Nat)
    (h : (sortByKey group_sort_key A).map (fun r => r.shift) =
      (sortByKey group_sort_key B).map (fun r => r.shift)) :
    merge_location_group A t = merge_location_group B t := by
  unfold merge_location_group
  refine foldl_map_eq_congr _ (fun r => r.shift) ?_ _ _ [] h
  intro acc a b hab
  have hab' : a.shift = b.shift := hab
  rw [hab']

end session_aggregate

/-- C5 (counterexample): two one-shift images whose shifts differ only by
customer-name case, under a valid ISO date: swapping the images changes
the aggregated output, because the merge keeps the base customer name on
an upgrade-key tie and the base is whichever image sorts first. -/
theorem aggregate_not_permutation_invariant :
    isValidIsoDate "2026-08-22" = true ∧
      [[fixtures.annaUpper], [fixtures.annaLower]].Perm
        [[fixtures.annaLower], [fixtures.annaUpper]] ∧
      session_aggregate.aggregate_session_shifts
          [[fixtures.annaUpper], [fixtures.annaLower]] "2026-08-22" 45 ≠
        session_aggregate.aggregate_session_shifts
          [[fixtures.annaLower], [fixtures.annaUpper]] "2026-08-22" 45 := by
  refine ⟨by decide, by decide, by decide⟩

open session_aggregate in
/-- C5 (amended): for every valid ISO schedule date and tolerance, and
every rearrangement of a session's images (and of the shifts within each
image, stated as a permutation of the flattened shift multiset), provided
the identity-and-time key `(location_fingerprint, start, end,
customer_fingerprint)` is injective on the session's shifts,
`aggregate_session_shifts` produces the identical aggregated day
schedule; its shift list is sorted by `(start, end, location_fingerprint,
customer_fingerprint, casefolded customer_name)`. -/
theorem aggregate_session_shifts_perm_invariant
    (imgs₁ imgs₂ : List (List CanonicalShift)) (d : String) (tol : Nat)
    (_hdate : isValidIsoDate d = true)
    (hperm : imgs₂.flatten.Perm imgs₁.flatten)
    (hinj : ∀ x ∈ imgs₁.flatten, ∀ y ∈ imgs₁.flatten,
      identity_time_key x = identity_time_key y → x = y) :
    aggregate_session_shifts imgs₁ d tol = aggregate_session_shifts imgs₂ d tol ∧
      (aggregate_session_shifts imgs₁ d tol).shifts.Pairwise
        (keyRel out_sort_key) := by
  have hshift1 : ((sortByKey refs_sort_key (enumImageRefs imgs₁)).map
      (fun r => r.shift)).Perm imgs₁.flatten := by
    have h := (sortByKey_perm refs_sort_key (enumImageRefs imgs₁)).map
      (fun r => r.shift)
    rwa [enumImageRefs_map_shift] at h
  have hshift2 : ((sortByKey refs_sort_key (enumImageRefs imgs₂)).map
      (fun r => r.shift)).Perm imgs₂.flatten := by
    have h := (sortByKey_perm refs_sort_key (enumImageRefs imgs₂)).map
      (fun r => r.shift)
    rwa [enumImageRefs_map_shift] at h
  have hshifts : ((sortByKey refs_sort_key (enumImageRefs imgs₂)).map
      (fun r => r.shift)).Perm
      ((sortByKey refs_sort_key (enumImageRefs imgs₁)).map (fun r => r.shift)) :=
    hshift2.trans (hperm.trans hshift1.symm)
  have hmapcodes : ∀ refs : List AggShiftRef,
      refs.map (fun r => codes r.shift.location_fingerprint) =
        (refs.map (fun r => r.shift)).map
          (fun s => codes s.location_fingerprint) := by
    intro refs
    rw [List.map_map]
    rfl
  have hloc : sortByKey (fun l => [l])
      (((sortByKey refs_sort_key (enumImageRefs imgs₁)).map
        (fun r => codes r.shift.location_fingerprint)).dedup) =
      sortByKey (fun l => [l])
      (((sortByKey refs_sort_key (enumImageRefs imgs₂)).map
        (fun r => codes r.shift.location_fingerprint)).dedup) := by
    apply eq_of_perm_sorted_inj (fun l => [l])
    · refine (sortByKey_perm _ _).trans (.trans ?_ (sortByKey_perm _ _).symm)
      apply List.Perm.dedup
      rw [hmapcodes, hmapcodes]
      exact (hshifts.map _).symm
    · exact sortByKey_pairwise _ _
    · exact sortByKey_pairwise _ _
    · intro x _ y _ hxy
      simpa using hxy
  have hgroups : ∀ lk : List Nat,
      merge_location_group ((sortByKey refs_sort_key (enumImageRefs imgs₁)).filter
        (fun r => codes r.shift.location_fingerprint == lk)) tol =
      merge_location_group ((sortByKey refs_sort_key (enumImageRefs imgs₂)).filter
        (fun r => codes r.shift.location_fingerprint == lk)) tol := by
    intro lk
    apply merge_location_group_shifts
    apply sorted_group_key_shifts_eq
    · rw [map_filter_comp (fun r : AggShiftRef => r.shift)
          (fun s => codes s.location_fingerprint == lk),
        map_filter_comp (fun r : AggShiftRef => r.shift)
          (fun s => codes s.location_fingerprint == lk)]
      exact (hshifts.symm.filter _)
    · intro x hx y hy hxy
      rw [map_filter_comp (fun r : AggShiftRef => r.shift)
          (fun s => codes s.location_fingerprint == lk)] at hx hy
      have hx' := List.mem_filter.mp hx
      have hy' := List.mem_filter.mp hy
      have hlx : codes x.location_fingerprint = lk := by simpa using hx'.2
      have hly : codes y.location_fingerprint = lk := by simpa using hy'.2
      apply hinj x (hshift1.mem_iff.mp hx'.1) y (hshift1.mem_iff.mp hy'.1)
      simp only [group_key_shift, List.cons.injEq, and_true] at hxy
      simp only [identity_time_key, List.cons.injEq, and_true]
      exact ⟨hlx.trans hly.symm, hxy.1, hxy.2.1, hxy.2.2⟩
  have hmerged :
      ((sortByKey (fun l => [l])
        (((sortByKey refs_sort_key (enumImageRefs imgs₁)).map
          (fun r => codes r.shift.location_fingerprint)).dedup)).flatMap fun lk =>
        merge_location_group ((sortByKey refs_sort_key (enumImageRefs imgs₁)).filter
          (fun r => codes r.shift.location_fingerprint == lk)) tol) =
      ((sortByKey (fun l => [l])
        (((sortByKey refs_sort_key (enumImageRefs imgs₂)).map
          (fun r => codes r.shift.location_fingerprint)).dedup)).flatMap fun lk =>
        merge_location_group ((sortByKey refs_sort_key (enumImageRefs imgs₂)).filter
          (fun r => codes r.shift.location_fingerprint == lk)) tol) := by
    rw [← hloc, List.flatMap_def, List.flatMap_def,
      List.map_congr_left fun lk _ => hgroups lk]
  constructor
  · unfold aggregate_session_shifts
    dsimp only
    rw [hmerged]
  · unfold aggregate_session_shifts
    dsimp only
    exact sortByKey_pairwise out_sort_key _

/-- C5 (witness): a three-shift session (distinct locations) with the
images swapped and one image's shifts reversed aggregates identically. -/
theorem aggregate_session_shifts_perm_invariant_witness :
    session_aggregate.aggregate_session_shifts
        [[fixtures.reorderA, fixtures.reorderB], [fixtures.reorderC]]
        "2026-08-22" 45 =
      session_aggregate.aggregate_session_shifts
        [[fixtures.reorderC], [fixtures.reorderB, fixtures.reorderA]]
        "2026-08-22" 45 :=
  (aggregate_session_shifts_perm_invariant
    [[fixtures.reorderA, fixtures.reorderB], [fixtures.reorderC]]
    [[fixtures.reorderC], [fixtures.reorderB, fixtures.reorderA]]
    "2026-08-22" 45 (by decide) (by decide) (by decide)).1

namespace notification_rules

/-- Every notification emitted for a group carries that group's user,
date and session fields. -/
theorem emit_fields (summary_threshold : Nat) (k : Nat × PyDate × String)
    (g : List ScheduleEvent) (today : Option PyDate) :
    ∀ n ∈ (if summary_threshold ≤ g.length then [summary_notification k g today]
        else g.map fun e => event_notification k e today),
      n.user_id = k.1 ∧ n.schedule_date = k.2.1 ∧ n.source_session_id = k.2.2 := by
  intro n hn
  by_cases h : summary_threshold ≤ g.length
  · rw [if_pos h] at hn
    rcases List.mem_cons.mp hn with rfl | hh
    · exact ⟨rfl, rfl, rfl⟩
    · cases hh
  · rw [if_neg h] at hn
    obtain ⟨e, _, rfl⟩ := List.mem_map.mp hn
    exact ⟨rfl, rfl, rfl⟩

end notification_rules

namespace session_lifecycle

theorem insertRow_perm (a : Int × String) :
    ∀ l : List (Int × String), (insertRow a l).Perm (a :: l)
  | [] => List.Perm.refl _
  | b :: l => by
    unfold insertRow
    by_cases h : rowLe a b = true
    · rw [if_pos h]
    · rw [if_neg h]
      exact ((insertRow_perm a l).cons b).trans (List.Perm.swap a b l)

theorem sortRows_perm : ∀ l : List (Int × String), (sortRows l).Perm l
  | [] => List.Perm.refl _
  | a :: l => (insertRow_perm a (sortRows l)).trans ((sortRows_perm l).cons a)

theorem le_foldl_max (t : Int) (ts : List Int) : ∀ x ∈ t :: ts, x ≤ ts.foldl max t := by
  induction ts generalizing t with
  | nil =>
    intro x hx
    rcases List.mem_cons.mp hx with rfl | h
    · exact le_refl x
    · cases h
  | cons u us ih =>
    intro x hx
    rcases List.mem_cons.mp hx with rfl | h
    · calc x ≤ max x u := le_max_left x u
        _ ≤ us.foldl max (max x u) := ih (max x u) _ (List.mem_cons_self _ _)
    · rcases List.mem_cons.mp h with rfl | h'
      · calc x ≤ max t x := le_max_right t x
          _ ≤ us.foldl max (max t x) := ih (max t x) _ (List.mem_cons_self _ _)
      · exact ih (max t u) x (List.mem_cons_of_mem _ h')

/-- Characterization of the finalizable-sessions query: an id is returned
exactly when some session row with that id is in the configured open
state, has at least one image, and its latest image is at or before the
idle cutoff. -/
theorem mem_find_finalizable_iff (db : Db) (now : Int)
    (config : SessionLifecycleConfig) (i : String) :
    i ∈ find_finalizable_sessions db now config ↔
      ∃ s ∈ db.capture_session, s.id = i ∧ s.state = config.open_state ∧
        ∃ t ts, (imagesOf db s.id).map (·.created_at) = t :: ts ∧
          ts.foldl max t ≤ now - (config.idle_timeout_seconds : Int) := by
  unfold find_finalizable_sessions
  dsimp only
  rw [List.mem_map]
  constructor
  · rintro ⟨row, hrow, hi⟩
    have hrow' := (sortRows_perm _).mem_iff.mp hrow
    obtain ⟨s, hs, hfs⟩ := List.mem_filterMap.mp hrow'
    by_cases hstate : s.state = config.open_state
    · rw [if_pos hstate] at hfs
      cases himg : (imagesOf db s.id).map (·.created_at) with
      | nil => rw [himg] at hfs; cases hfs
      | cons t ts =>
        rw [himg] at hfs
        dsimp only at hfs
        by_cases hle : ts.foldl max t ≤ now - (config.idle_timeout_seconds : Int)
        · rw [if_pos hle] at hfs
          obtain rfl := Option.some.inj hfs
          exact ⟨s, hs, by simpa using hi, hstate, t, ts, himg, hle⟩
        · rw [if_neg hle] at hfs; cases hfs
    · rw [if_neg hstate] at hfs; cases hfs
  · rintro ⟨s, hs, rfl, hstate, t, ts, himg, hle⟩
    refine ⟨(ts.foldl max t, s.id), ?_, rfl⟩
    rw [(sortRows_perm _).mem_iff]
    refine List.mem_filterMap.mpr ⟨s, hs, ?_⟩
    rw [if_pos hstate, himg]
    dsimp only
    rw [if_pos hle]

end session_lifecycle

open session_lifecycle in
/-- C9: an open session whose latest image is within the idle timeout of
`now` (witnessed by any image newer than the cutoff) is never returned by
the finalizable-sessions query; conversely everything the query returns
is an open session with at least one image whose latest image is at or
before `now - idle_timeout`. -/
theorem idle_sessions_never_finalizable (db : Db) (now : Int)
    (config : SessionLifecycleConfig) :
    (∀ s ∈ db.capture_session, s.state = config.open_state →
      ∀ img ∈ db.capture_image, img.session_id = s.id →
      now - (config.idle_timeout_seconds : Int) < img.created_at →
      s.id ∉ find_finalizable_sessions db now config) ∧
    (∀ i ∈ find_finalizable_sessions db now config,
      ∃ s ∈ db.capture_session, s.id = i ∧ s.state = config.open_state ∧
        ∃ t ts, (imagesOf db s.id).map (·.created_at) = t :: ts ∧
          ts.foldl max t ≤ now - (config.idle_timeout_seconds : Int)) := by
  constructor
  · intro s _ _ img himg hsid hrecent hmem
    obtain ⟨s', _, hid, _, t, ts, himgs, hle⟩ :=
      (mem_find_finalizable_iff db now config s.id).mp hmem
    have himg' : img ∈ imagesOf db s'.id := by
      rw [hid]
      exact List.mem_filter.mpr ⟨himg, by simpa using hsid⟩
    have hmemmap : img.created_at ∈ (imagesOf db s'.id).map (·.created_at) :=
      List.mem_map.mpr ⟨img, himg', rfl⟩
    rw [himgs] at hmemmap
    exact absurd (le_trans (le_foldl_max t ts _ hmemmap) hle) (not_le.mpr hrecent)
  · intro i hmem
    exact (mem_find_finalizable_iff db now config i).mp hmem

open session_lifecycle in
/-- C9 (witness): with the default 25-second timeout, a session whose
single image arrived 10 seconds ago is not finalizable. -/
theorem idle_sessions_never_finalizable_witness :
    "sess-1" ∉ find_finalizable_sessions fixtures.recentDb 1000 defaultConfig :=
  (idle_sessions_never_finalizable fixtures.recentDb 1000 defaultConfig).1
    (CaptureSessionRow.mk "sess-1" "closed") (by decide) (by decide)
    (CaptureImageRow.mk "sess-1" 990) (by decide) (by decide) (by decide)

open session_lifecycle in
/-- C10: a session id referenced by no capture image is never returned by
the finalizable-sessions query — the inner join drops imageless sessions
regardless of their state, age, or the current time. -/
theorem imageless_sessions_never_finalizable (db : Db) (now : Int)
    (config : SessionLifecycleConfig) (i : String)
    (h : ∀ img ∈ db.capture_image, img.session_id ≠ i) :
    i ∉ find_finalizable_sessions db now config := by
  intro hmem
  obtain ⟨s, _, hid, _, t, ts, himgs, _⟩ :=
    (mem_find_finalizable_iff db now config i).mp hmem
  have : t ∈ (imagesOf db s.id).map (·.created_at) := by
    rw [himgs]; exact List.mem_cons_self t ts
  obtain ⟨img, himg, _⟩ := List.mem_map.mp this
  have himgdb : img ∈ db.capture_image := (List.mem_filter.mp himg).1
  have hsid : img.session_id = s.id := by
    have := (List.mem_filter.mp himg).2
    simpa using this
  exact h img himgdb (hid ▸ hsid)

open session_lifecycle in
/-- C10 (witness). -/
theorem imageless_sessions_never_finalizable_witness :
    (∀ img ∈ fixtures.imagelessDb.capture_image, img.session_id ≠ "sess-1") ∧
      "sess-1" ∉ find_finalizable_sessions fixtures.imagelessDb 999999 defaultConfig :=
  ⟨by decide,
    imageless_sessions_never_finalizable fixtures.imagelessDb 999999 defaultConfig
      "sess-1" (by decide)⟩

open session_lifecycle in
/-- C8 (counterexample): a claimed session (state `processing`) whose
notification persist fails does not remain in `processing` — the code
marks the session `done` before storing notifications. -/
theorem lifecycle_store_failure_leaves_done :
    (run_lifecycle_step defaultConfig false 1
        (LifecycleState.mk "processing" 0)).1.session_state = "done" ∧
      (run_lifecycle_step defaultConfig false 1
        (LifecycleState.mk "processing" 0)).1.session_state ≠ "processing" := by
  decide

open session_lifecycle in
/-- C8 (amended): during finalization the conditional
`processing → done` transition runs before notifications are persisted,
and notifications are persisted only when that transition applied; when
persisting then fails, the session has already been marked done (so it
does not remain in `processing`), the failure handler cannot mark it
failed, and nothing was stored. -/
theorem lifecycle_marks_done_before_storing
    (config : SessionLifecycleConfig) (n : Nat) (st : LifecycleState)
    (store_ok : Bool) (hproc : st.session_state = config.processing_state)
    (hdist : config.processed_state ≠ config.processing_state) :
    (run_lifecycle_step config store_ok n st).2 =
        [LifecycleStep.load_images, .run_pipeline, .persist_events,
          .build_messages, .mark_processed true] ++
          (if store_ok then [LifecycleStep.store_messages true]
           else [.store_messages false, .mark_failed false]) ∧
      (run_lifecycle_step config store_ok n st).1.session_state =
        config.processed_state ∧
      (store_ok = false →
        (run_lifecycle_step config store_ok n st).1.stored_notifications =
          st.stored_notifications) := by
  unfold run_lifecycle_step process_finalized_session mark_session_processed
    mark_session_failed
  cases store_ok with
  | true => simp [hproc]
  | false => simp [hproc, hdist]

open session_lifecycle in
/-- C8 (witness). -/
theorem lifecycle_marks_done_before_storing_witness :
    (run_lifecycle_step defaultConfig false 2
          (LifecycleState.mk "processing" 0)).2 =
        [LifecycleStep.load_images, .run_pipeline, .persist_events,
          .build_messages, .mark_processed true, .store_messages false,
          .mark_failed false] ∧
      (run_lifecycle_step defaultConfig false 2
          (LifecycleState.mk "processing" 0)).1.session_state = "done" ∧
      (run_lifecycle_step defaultConfig false 2
          (LifecycleState.mk "processing" 0)).1.stored_notifications = 0 := by
  have h := lifecycle_marks_done_before_storing defaultConfig 2
    (LifecycleState.mk "processing" 0) false (by decide) (by decide)
  exact ⟨by simpa using h.1, h.2.1, h.2.2 rfl⟩

open notification_rules in
/-- C7 (counterexample): the summary notification's event ids follow the
deterministic event sort key, not the input order — feeding the later
event first still yields the ids sorted by start time. -/
theorem build_notifications_ids_not_input_order :
    (build_notifications [fixtures.evLate, fixtures.evEarly] 2 none []).map
        (fun n => n.event_ids) = [["evt-a", "evt-b"]] ∧
      ¬((build_notifications [fixtures.evLate, fixtures.evEarly] 2 none []).map
          (fun n => n.event_ids) =
        [[fixtures.evLate.event_id, fixtures.evEarly.event_id]]) := by
  constructor
  · decide
  · decide

open notification_rules in
/-- C7 (amended): for every group of fresh events sharing
`(user, date, source_session_id)` whose size reaches the threshold,
`build_notifications` emits exactly one notification carrying that
group's fields: a `summary` whose message is "N shifts updated for
<day phrase>" with N the group size and whose event ids cover the
group's event ids ordered by the deterministic event sort key. -/
theorem build_notifications_summary_for_large_group
    (events : List ScheduleEvent) (summary_threshold : Nat)
    (today : Option PyDate) (already : List String)
    (k : Nat × PyDate × String) (hpos : 0 < summary_threshold)
    (hsize : summary_threshold ≤
      ((dedupe_fresh (sortByKey event_sort_key events) already).filter
        (fun e => group_key e == k)).length) :
    (build_notifications events summary_threshold today already).filter
        (fun n => n.user_id == k.1 && n.schedule_date == k.2.1 &&
          n.source_session_id == k.2.2) =
      [summary_notification k
        ((dedupe_fresh (sortByKey event_sort_key events) already).filter
          (fun e => group_key e == k)) today] ∧
      (summary_notification k
        ((dedupe_fresh (sortByKey event_sort_key events) already).filter
          (fun e => group_key e == k)) today).notification_type = "summary" ∧
      (summary_notification k
        ((dedupe_fresh (sortByKey event_sort_key events) already).filter
          (fun e => group_key e == k)) today).message =
        natDecStr ((dedupe_fresh (sortByKey event_sort_key events) already).filter
          (fun e => group_key e == k)).length ++ " shifts updated for " ++
          day_label k.2.1 today ∧
      (summary_notification k
        ((dedupe_fresh (sortByKey event_sort_key events) already).filter
          (fun e => group_key e == k)) today).event_ids =
        ((dedupe_fresh (sortByKey event_sort_key events) already).filter
          (fun e => group_key e == k)).map (fun e => e.event_id) := by
  refine ⟨?_, rfl, rfl, rfl⟩
  unfold build_notifications
  dsimp only
  set fresh := dedupe_fresh (sortByKey event_sort_key events) already with hfresh
  set g := fresh.filter (fun e => group_key e == k) with hg
  set keys := sortByKey gkey_nkey ((fresh.map group_key).dedup) with hkeys
  set p : UserNotification → Bool := fun n =>
    n.user_id == k.1 && n.schedule_date == k.2.1 && n.source_session_id == k.2.2
    with hp
  set emit : Nat × PyDate × String → List UserNotification := fun k' =>
    if summary_threshold ≤ (fresh.filter (fun e => group_key e == k')).length then
      [summary_notification k' (fresh.filter (fun e => group_key e == k')) today]
    else
      (fresh.filter (fun e => group_key e == k')).map fun e =>
        event_notification k' e today
    with hemit
  have hpk : ∀ k' (n : UserNotification),
      n.user_id = k'.1 ∧ n.schedule_date = k'.2.1 ∧
        n.source_session_id = k'.2.2 → k' ≠ k → p n = false := by
    rintro k' n ⟨h1, h2, h3⟩ hne
    rw [hp]
    by_contra hcon
    rw [Bool.not_eq_false] at hcon
    simp only [Bool.and_eq_true, beq_iff_eq] at hcon
    rcases hcon with ⟨⟨hu, hd⟩, hs⟩
    apply hne
    apply Prod.ext
    · rw [← h1, hu]
    · apply Prod.ext
      · rw [← h2, hd]
      · rw [← h3, hs]
  have hothers : ∀ k' ∈ keys, k' ≠ k → (emit k').filter p = [] := by
    intro k' _ hne
    rw [List.filter_eq_nil_iff]
    intro n hn
    have hf := emit_fields summary_threshold k'
      (fresh.filter (fun e => group_key e == k')) today n (by simpa [hemit] using hn)
    simp [hpk k' n hf hne]
  have hgnil : g ≠ [] := by
    intro hnil
    rw [hnil] at hsize
    simp at hsize
    omega
  have hkmem : k ∈ keys := by
    rw [hkeys, sortByKey_mem, List.mem_dedup]
    obtain ⟨e, he⟩ := List.exists_mem_of_ne_nil g hgnil
    have := List.mem_filter.mp (hg ▸ he)
    refine List.mem_map.mpr ⟨e, this.1, ?_⟩
    have := this.2
    simpa using this
  have hnodup : keys.Nodup := by
    rw [hkeys]
    exact ((sortByKey_perm _ _).nodup_iff).mpr (List.nodup_dedup _)
  have := flatMap_filter_unique p emit keys k hkmem hnodup hothers
  rw [this, hemit]
  dsimp only
  rw [if_pos (by simpa [hg] using hsize)]
  have hpt : p (summary_notification k
      (fresh.filter (fun e => group_key e == k)) today) = true := by
    rw [hp]
    simp [summary_notification]
  simp only [List.filter_cons, hpt, if_true, List.filter_nil]

open notification_rules in
/-- C7 (witness): two time-changed events in one group with threshold 2
produce exactly the summary "2 shifts updated for on 2026-08-22". -/
theorem build_notifications_summary_witness :
    (build_notifications [fixtures.evLate, fixtures.evEarly] 2 none []).filter
        (fun n => n.user_id == 7 && n.schedule_date == PyDate.mk 2026 8 22 &&
          n.source_session_id == "sess-1") =
      [summary_notification (7, PyDate.mk 2026 8 22, "sess-1")
        ((dedupe_fresh (sortByKey event_sort_key [fixtures.evLate, fixtures.evEarly]) []).filter
          (fun e => group_key e == (7, PyDate.mk 2026 8 22, "sess-1"))) none] :=
  (build_notifications_summary_for_large_group [fixtures.evLate, fixtures.evEarly]
    2 none [] (7, PyDate.mk 2026 8 22, "sess-1") (by decide) (by decide)).1

end TelegramOCR
